import Mathlib

/-!
Shallow embedding of the reactive calculation engine (`Calc` / `Cell` /
`Formula` and the `Live` family's `Value` / `Subscription`).

Nodes live in a single `EngineState`; node references are indices into
`EngineState.nodes`.  JavaScript `Map` and `Set` objects are modelled as
insertion-ordered association lists and duplicate-free lists.  User-supplied
formula closures are modelled by the small expression language `Expr`, whose
only effects are reading other nodes (`Calc.calc()`) and throwing; user
listeners are modelled as inert identifiers whose invocations are recorded in
an event log, matching the engine's view of them (the engine never observes a
listener's return value; a listener's exception is swallowed and rescheduled).
JavaScript exceptions are values (`Res.thrown`); `new Error(...)` allocates a
fresh identity from `nextErrId`, so two engine errors are never `Object.is`
equal, like in JavaScript.  The external source wrapped by a subscription is
modelled as a current value stored in the node (`extValue`) plus the
`attached` flag for the upstream listener; its `get` is total.  All engine
recursion is fuelled: `Res.out` means the recursion exceeded the fuel, which
models JavaScript stack exhaustion (e.g. on cyclic graphs).
-/

namespace CalcEngine

/-- Identity of a thrown engine error, used to tell the error sites apart. -/
inductive ErrCode where
  | outOfContextCalc
  | setInsideFormula
  | liveValueDependentError
  | subscriptionDependentError
  | engineInvariant
deriving DecidableEq, Repr

/-- JavaScript values as far as the engine observes them: `null`, numbers
(modelled as integers) and error objects with allocation identity. -/
inductive Val where
  | vnull
  | vint (n : Int)
  | verr (id : Nat) (code : ErrCode)
deriving DecidableEq, Repr

/-- The `objectIs` helper from the source (`Object.is`).  On this value
domain it is plain equality: error objects compare by their allocation
identity, numbers by value, and there is no `NaN`. -/
def objectIs (a b : Val) : Bool := decide (a = b)

/-- Completion of a formula or subscription computation (`FormulaCompletion`
in the source): did the user closure return or throw? -/
inductive CompletionKind where
  | normal
  | abrupt
deriving DecidableEq, Repr

/-- The `_valid` field of a `Subscription`: `false`, `true`, or the
transaction number the value was validated in (`number | boolean`). -/
inductive SValid where
  | sfalse
  | strue
  | stx (t : Nat)
deriving DecidableEq, Repr

/-- User-supplied closures for formulas, as a small expression language.
`readNode id` performs `node.calc()` on the node with index `id`. -/
inductive Expr where
  | lit (n : Int)
  | readNode (id : Nat)
  | add (a b : Expr)
  | seq (a b : Expr)
  | throwValue (a : Expr)
deriving DecidableEq, Repr

/-- Per-node data for the four node classes.  `formula` carries `_valid`
(`Option Nat`, `none` being `false`), `_version`, `_completion`, `_value`,
`_dependencies` (`none` for the JavaScript `null`) and the closure.
`subscription` carries its `_valid`, `_version`, `_completion`, `_value`,
whether the upstream listener is attached, and the external source's
current value. -/
inductive NodeData where
  | cell (version : Nat) (value : Val)
  | liveValue (version : Nat) (value : Val)
  | formula (valid : Option Nat) (version : Nat) (completion : CompletionKind)
      (value : Val) (dependencies : Option (List (Nat × Nat))) (calculate : Expr)
  | subscription (valid : SValid) (version : Nat) (completion : CompletionKind)
      (value : Val) (attached : Bool) (extValue : Val)
deriving DecidableEq, Repr

/-- A reactive node: its class-specific data plus the base-class state
`_dependents` and `_listeners` (the JavaScript `Set`s, `null` encoded as the
empty list, insertion-ordered and duplicate-free). -/
structure Node where
  data : NodeData
  dependents : List Nat
  listeners : List Nat
deriving DecidableEq, Repr

/-- Observable events: a formula closure started running, a user listener was
invoked, a subscription invoked the external `get`, and the upstream listener
was attached or detached. -/
inductive Event where
  | closureRun (f : Nat)
  | listenerFired (node : Nat) (l : Nat)
  | extGet (sid : Nat)
  | extAttach (sid : Nat)
  | extDetach (sid : Nat)
deriving DecidableEq, Repr

/-- The whole engine: the node heap, the module-level mutable variables
`currentFormulaDependencies`, `currentFormulaTransaction` and
`nextFormulaTransaction` from `Formula.ts`, the queue of `notify` callbacks
scheduled by `Cell.set`, the event log, and the error-identity allocator. -/
structure EngineState where
  nodes : List Node
  currentFormulaDependencies : Option (List (Nat × Nat))
  currentFormulaTransaction : Option Nat
  nextFormulaTransaction : Nat
  pending : List Nat
  log : List Event
  nextErrId : Nat
deriving DecidableEq, Repr

/-- Result of an engine operation: normal return with the new state, a thrown
JavaScript value with the state at the throw, or fuel exhaustion. -/
inductive RVal where
  | unit
  | ver (n : Nat)
  | flag (b : Bool)
  | val (v : Val)
deriving DecidableEq, Repr

inductive Res where
  | ok (s : EngineState) (r : RVal)
  | thrown (s : EngineState) (v : Val)
  | out
deriving DecidableEq, Repr

/-- `Map.set` on an insertion-ordered association list: replace in place or
append. -/
def mapSet : List (Nat × Nat) → Nat → Nat → List (Nat × Nat)
  | [], k, v => [(k, v)]
  | (k', v') :: rest, k, v =>
      if k' = k then (k, v) :: rest else (k', v') :: mapSet rest k v

/-- `Map.has`. -/
def mapHas (l : List (Nat × Nat)) (k : Nat) : Bool := l.any (fun e => e.1 = k)

/-- `Map.delete` (the key occurs at most once). -/
def mapDelete : List (Nat × Nat) → Nat → List (Nat × Nat)
  | [], _ => []
  | (k', v') :: rest, k => if k' = k then rest else (k', v') :: mapDelete rest k

/-- `Set.add`: append unless already present. -/
def setAdd (l : List Nat) (x : Nat) : List Nat := if x ∈ l then l else l ++ [x]

/-- `Set.delete`. -/
def setDelete (l : List Nat) (x : Nat) : List Nat := l.filter (fun y => y ≠ x)

def getNode (s : EngineState) (id : Nat) : Option Node := s.nodes[id]?

def listModify : List Node → Nat → (Node → Node) → List Node
  | [], _, _ => []
  | n :: rest, 0, f => f n :: rest
  | n :: rest, i + 1, f => n :: listModify rest i f

def modifyNode (s : EngineState) (id : Nat) (f : Node → Node) : EngineState :=
  { s with nodes := listModify s.nodes id f }

def logEvent (s : EngineState) (e : Event) : EngineState :=
  { s with log := s.log ++ [e] }

/-- `new Error(...)`: allocate a fresh error identity. -/
def mkError (s : EngineState) (c : ErrCode) : EngineState × Val :=
  ({ s with nextErrId := s.nextErrId + 1 }, .verr s.nextErrId c)

/-- The `shouldListen` helper from `Formula.ts` (identical in
`Subscription`): the node has dependents or listeners. -/
def shouldListen (n : Node) : Bool := !n.dependents.isEmpty || !n.listeners.isEmpty

/-- Base-class `_addDependent` body (`Calc._addDependent`): add to the set. -/
def addDependentBase (dep : Nat) (n : Node) : Node :=
  { n with dependents := setAdd n.dependents dep }

/-- Base-class `_removeDependent` body. -/
def removeDependentBase (dep : Nat) (n : Node) : Node :=
  { n with dependents := setDelete n.dependents dep }

/-- Base-class `addListener` body. -/
def addListenerBase (l : Nat) (n : Node) : Node :=
  { n with listeners := setAdd n.listeners l }

/-- Base-class `removeListener` body. -/
def removeListenerBase (l : Nat) (n : Node) : Node :=
  { n with listeners := setDelete n.listeners l }

/-- The version-bump commit in `Formula._getLatestVersion`: compare the fresh
completion and value against the stored ones with `objectIs`; on a difference
increment `_version` and store the new pair. -/
def formulaUpdateValue (s : EngineState) (id : Nat)
    (completion1 : CompletionKind) (value1 : Val) : EngineState :=
  modifyNode s id (fun n =>
    match n.data with
    | .formula valid version completion value dependencies calculate =>
        if objectIs value value1 && decide (completion = completion1) then n
        else
          { n with data :=
              NodeData.formula valid (version + 1) completion1 value1 dependencies calculate }
    | _ => n)

/-- `this._dependencies = dependencies` in `Formula._getLatestVersion`. -/
def formulaSetDependencies (s : EngineState) (id : Nat)
    (d : Option (List (Nat × Nat))) : EngineState :=
  modifyNode s id (fun n =>
    match n.data with
    | .formula valid version completion value _ calculate =>
        { n with data := .formula valid version completion value d calculate }
    | _ => n)

/-- `this._valid = currentFormulaTransaction` (or `false`). -/
def formulaSetValid (s : EngineState) (id : Nat) (v : Option Nat) : EngineState :=
  modifyNode s id (fun n =>
    match n.data with
    | .formula _ version completion value dependencies calculate =>
        { n with data := .formula v version completion value dependencies calculate }
    | _ => n)

/-- Invalidation of a formula inside `Formula._callListeners`:
`this._valid = false; this._value = null` (the completion and the dependency
set are kept). -/
def formulaInvalidate (s : EngineState) (id : Nat) : EngineState :=
  modifyNode s id (fun n =>
    match n.data with
    | .formula _ version completion _ dependencies calculate =>
        { n with data := .formula none version completion .vnull dependencies calculate }
    | _ => n)

def formulaVersionOf (s : EngineState) (id : Nat) : Option Nat :=
  match getNode s id with
  | some n =>
      match n.data with
      | .formula _ version _ _ _ _ => some version
      | _ => none
  | none => none

/-- The version-bump commit in `Subscription._getLatestVersion` (same
equality and increment logic as for formulas). -/
def subUpdateValue (s : EngineState) (id : Nat)
    (completion1 : CompletionKind) (value1 : Val) : EngineState :=
  modifyNode s id (fun n =>
    match n.data with
    | .subscription valid version completion value attached extValue =>
        if objectIs value value1 && decide (completion = completion1) then n
        else
          { n with data :=
              NodeData.subscription valid (version + 1) completion1 value1 attached extValue }
    | _ => n)

/-- `this._valid = ...` on a subscription. -/
def subSetValid (s : EngineState) (id : Nat) (v : SValid) : EngineState :=
  modifyNode s id (fun n =>
    match n.data with
    | .subscription _ version completion value attached extValue =>
        { n with data := .subscription v version completion value attached extValue }
    | _ => n)

/-- Invalidation of a subscription (`_subscriptionListener` body and the
listened-to transition): `_valid = false; _value = null`. -/
def subInvalidate (s : EngineState) (id : Nat) : EngineState :=
  modifyNode s id (fun n =>
    match n.data with
    | .subscription _ version completion _ attached extValue =>
        { n with data := .subscription .sfalse version completion .vnull attached extValue }
    | _ => n)

def subSetAttached (b : Bool) (n : Node) : Node :=
  match n.data with
  | .subscription valid version completion value _ extValue =>
      { n with data := .subscription valid version completion value b extValue }
  | _ => n

def subVersionOf (s : EngineState) (id : Nat) : Option Nat :=
  match getNode s id with
  | some n =>
      match n.data with
      | .subscription _ version _ _ _ _ => some version
      | _ => none
  | none => none

/-- `updateSubscriptionListener` from `Subscription.ts`: on the listened-to
predicate turning true, invalidate unless validated in the current
transaction, then attach the upstream listener; on it turning false, detach. -/
def updateSubscriptionListener (s : EngineState) (id : Nat)
    (wasListening : Bool) : EngineState :=
  match getNode s id with
  | some n =>
      match n.data with
      | .subscription valid _ _ _ _ _ =>
          let willListen := shouldListen n
          if willListen && !wasListening then
            let txMatches : Bool :=
              match s.currentFormulaTransaction with
              | some t => decide (valid = SValid.stx t)
              | none => false
            let s1 := if txMatches then s else subInvalidate s id
            logEvent (modifyNode s1 id (subSetAttached true)) (.extAttach id)
          else if !willListen && wasListening then
            logEvent (modifyNode s id (subSetAttached false)) (.extDetach id)
          else s
      | _ => s
  | none => s

/-- Requests for the mutually recursive part of the engine.  Each constructor
is one of the mutually recursive operations of the source: expression
evaluation (a user closure body), `calc()` (`calcM`), `_getLatestVersion`,
the staleness walk over a dependency list, the three dependent-registration
loops of the dependency diff and of `updateDependencyListeners`,
`_addDependent` / `_removeDependent` dispatch, `updateDependencyListeners`,
`_callListeners` dispatch, the base-class `_callListeners` body, and the
fanout loop over a dependents list. -/
inductive Req where
  | evalExpr (e : Expr)
  | calcM (id : Nat)
  | getLatestVersion (id : Nat)
  | checkDependencies (entries : List (Nat × Nat))
  | registerAll (self : Nat) (entries : List (Nat × Nat))
  | unregisterAll (self : Nat) (entries : List (Nat × Nat))
  | registerDiff (self : Nat) (entries old : List (Nat × Nat))
  | addDependent (target dep : Nat)
  | removeDependent (target dep : Nat)
  | updateDependencyListeners (f : Nat) (didListen : Bool)
  | callListeners (id : Nat)
  | callListenersBase (id : Nat)
  | notifyDependents (ds : List Nat)
deriving DecidableEq, Repr

def run : Nat → EngineState → Req → Res
  | 0, _, _ => .out
  | fuel + 1, s, req =>
    match req with
    | .evalExpr e =>
      match e with
      | .lit n => .ok s (.val (.vint n))
      | .readNode id => run fuel s (.calcM id)
      | .add a b =>
        match run fuel s (.evalExpr a) with
        | .ok s1 (.val (.vint na)) =>
          match run fuel s1 (.evalExpr b) with
          | .ok s2 (.val (.vint nb)) => .ok s2 (.val (.vint (na + nb)))
          | .thrown s2 v => .thrown s2 v
          | _ => .out
        | .thrown s1 v => .thrown s1 v
        | _ => .out
      | .seq a b =>
        match run fuel s (.evalExpr a) with
        | .ok s1 (.val _) => run fuel s1 (.evalExpr b)
        | .thrown s1 v => .thrown s1 v
        | _ => .out
      | .throwValue a =>
        match run fuel s (.evalExpr a) with
        | .ok s1 (.val v) => .thrown s1 v
        | .thrown s1 v => .thrown s1 v
        | _ => .out
    | .calcM id =>
      -- both `Cell.calc` and `Formula.calc` first check for an active frame
      match s.currentFormulaDependencies with
      | none =>
        let (s', e) := mkError s .outOfContextCalc
        .thrown s' e
      | some frame =>
        match getNode s id with
        | none => .out
        | some n =>
          match n.data with
          | .cell version value =>
            .ok { s with currentFormulaDependencies := some (mapSet frame id version) }
              (.val value)
          | .liveValue version value =>
            .ok { s with currentFormulaDependencies := some (mapSet frame id version) }
              (.val value)
          | .formula _ _ _ _ _ _ =>
            match run fuel s (.getLatestVersion id) with
            | .ok s1 (.ver version) =>
              match s1.currentFormulaDependencies with
              | none =>
                let (s2, e) := mkError s1 .engineInvariant
                .thrown s2 e
              | some frame1 =>
                let s2 := { s1 with
                  currentFormulaDependencies := some (mapSet frame1 id version) }
                match getNode s2 id with
                | some n1 =>
                  match n1.data with
                  | .formula _ _ completion value _ _ =>
                    if completion = .normal then .ok s2 (.val value)
                    else .thrown s2 value
                  | _ => .out
                | none => .out
            | .thrown s1 v => .thrown s1 v
            | _ => .out
          | .subscription _ _ _ _ _ _ =>
            match run fuel s (.getLatestVersion id) with
            | .ok s1 (.ver version) =>
              match s1.currentFormulaDependencies with
              | none =>
                let (s2, e) := mkError s1 .engineInvariant
                .thrown s2 e
              | some frame1 =>
                let s2 := { s1 with
                  currentFormulaDependencies := some (mapSet frame1 id version) }
                match getNode s2 id with
                | some n1 =>
                  match n1.data with
                  | .subscription _ _ completion value _ _ =>
                    if completion = .normal then .ok s2 (.val value)
                    else .thrown s2 value
                  | _ => .out
                | none => .out
            | .thrown s1 v => .thrown s1 v
            | _ => .out
    | .getLatestVersion id =>
      match getNode s id with
      | none => .out
      | some n =>
        match n.data with
        | .cell version _ => .ok s (.ver version)
        | .liveValue version _ => .ok s (.ver version)
        | .formula valid version _ _ dependencies calculate =>
          -- start a new formula transaction if one has not been started yet
          let lastFormulaTransaction := s.currentFormulaTransaction
          let txPair :=
            match s.currentFormulaTransaction with
            | some t => (s, t)
            | none =>
              ({ s with currentFormulaTransaction := some s.nextFormulaTransaction,
                        nextFormulaTransaction := s.nextFormulaTransaction + 1 },
               s.nextFormulaTransaction)
          let s0 := txPair.1
          let tx := txPair.2
          if valid = some tx then
            -- already validated in this transaction
            .ok s0 (.ver version)
          else
            -- decide whether to recalculate
            let step1 : Res :=
              if valid = none then .ok s0 (.flag true)
              else
                match dependencies with
                | none =>
                  -- the `this._dependencies!` of the source would be a null
                  -- dereference here (`TypeError` thrown)
                  let (s', e) := mkError s0 .engineInvariant
                  .thrown s' e
                | some entries => run fuel s0 (.checkDependencies entries)
            match step1 with
            | .thrown s1 v => .thrown s1 v
            | .ok s1 (.flag recalculate) =>
              if recalculate then
                let lastFormulaDependencies := s1.currentFormulaDependencies
                let s2 := logEvent
                  { s1 with currentFormulaDependencies := some [] } (.closureRun id)
                let evalRes :=
                  match run fuel s2 (.evalExpr calculate) with
                  | .ok s3 (.val v) => some (s3, CompletionKind.normal, v)
                  | .thrown s3 v => some (s3, CompletionKind.abrupt, v)
                  | _ => none
                match evalRes with
                | none => .out
                | some (s3, completion1, value1) =>
                  let s4 := formulaUpdateValue s3 id completion1 value1
                  let capturedDependencies := s4.currentFormulaDependencies
                  let s5 := { s4 with
                    currentFormulaDependencies := lastFormulaDependencies }
                  let lastDependencies :=
                    match getNode s5 id with
                    | some n1 =>
                      match n1.data with
                      | .formula _ _ _ _ d _ => d
                      | _ => none
                    | none => none
                  let s6 := formulaSetDependencies s5 id capturedDependencies
                  let listen :=
                    match getNode s6 id with
                    | some n1 => shouldListen n1
                    | none => false
                  let diffRes : Res :=
                    if listen then
                      match capturedDependencies with
                      | none => .ok s6 .unit
                      | some newEntries =>
                        match lastDependencies with
                        | none => run fuel s6 (.registerAll id newEntries)
                        | some oldEntries =>
                          run fuel s6 (.registerDiff id newEntries oldEntries)
                    else .ok s6 .unit
                  match diffRes with
                  | .ok s7 _ =>
                    let s8 := formulaSetValid s7 id (some tx)
                    let s9 := { s8 with
                      currentFormulaTransaction := lastFormulaTransaction }
                    match formulaVersionOf s9 id with
                    | some ver1 => .ok s9 (.ver ver1)
                    | none => .out
                  | .thrown s7 v => .thrown s7 v
                  | _ => .out
              else
                let s8 := formulaSetValid s1 id (some tx)
                let s9 := { s8 with
                  currentFormulaTransaction := lastFormulaTransaction }
                match formulaVersionOf s9 id with
                | some ver1 => .ok s9 (.ver ver1)
                | none => .out
            | _ => .out
        | .subscription valid version _ _ _ extValue =>
          let txMatches : Bool :=
            match s.currentFormulaTransaction with
            | some t => decide (valid = SValid.stx t)
            | none => false
          if txMatches then .ok s (.ver version)
          else
            let needsCompute := decide (valid = SValid.sfalse) || !(shouldListen n)
            let s1 :=
              if needsCompute then
                -- suppress the dependency frame around the external `get`
                let lastComputationDependencies := s.currentFormulaDependencies
                let sA := logEvent
                  { s with currentFormulaDependencies := none } (.extGet id)
                let sB := subUpdateValue sA id .normal extValue
                { sB with currentFormulaDependencies := lastComputationDependencies }
              else s
            let s2 := subSetValid s1 id
              (match s1.currentFormulaTransaction with
               | some t => .stx t
               | none => .strue)
            match subVersionOf s2 id with
            | some ver1 => .ok s2 (.ver ver1)
            | none => .out
    | .checkDependencies entries =>
      match entries with
      | [] => .ok s (.flag false)
      | (d, observed) :: rest =>
        match run fuel s (.getLatestVersion d) with
        | .ok s1 (.ver v) =>
          if observed < v then .ok s1 (.flag true)
          else run fuel s1 (.checkDependencies rest)
        | .thrown s1 v => .thrown s1 v
        | _ => .out
    | .registerAll self entries =>
      match entries with
      | [] => .ok s .unit
      | (d, _) :: rest =>
        match run fuel s (.addDependent d self) with
        | .ok s1 _ => run fuel s1 (.registerAll self rest)
        | .thrown s1 v => .thrown s1 v
        | _ => .out
    | .unregisterAll self entries =>
      match entries with
      | [] => .ok s .unit
      | (d, _) :: rest =>
        match run fuel s (.removeDependent d self) with
        | .ok s1 _ => run fuel s1 (.unregisterAll self rest)
        | .thrown s1 v => .thrown s1 v
        | _ => .out
    | .registerDiff self entries old =>
      -- one pass over the new set with destructive lookup in the old set,
      -- then removal from the remainder of the old set
      match entries with
      | [] => run fuel s (.unregisterAll self old)
      | (d, _) :: rest =>
        if mapHas old d then run fuel s (.registerDiff self rest (mapDelete old d))
        else
          match run fuel s (.addDependent d self) with
          | .ok s1 _ => run fuel s1 (.registerDiff self rest old)
          | .thrown s1 v => .thrown s1 v
          | _ => .out
    | .addDependent target dep =>
      match getNode s target with
      | none => .out
      | some n =>
        match n.data with
        | .cell _ _ => .ok (modifyNode s target (addDependentBase dep)) .unit
        | .liveValue _ _ => .ok (modifyNode s target (addDependentBase dep)) .unit
        | .formula _ _ _ _ _ _ =>
          let didListen := shouldListen n
          let s1 := modifyNode s target (addDependentBase dep)
          run fuel s1 (.updateDependencyListeners target didListen)
        | .subscription _ _ _ _ _ _ =>
          let wasListening := shouldListen n
          let s1 := modifyNode s target (addDependentBase dep)
          .ok (updateSubscriptionListener s1 target wasListening) .unit
    | .removeDependent target dep =>
      match getNode s target with
      | none => .out
      | some n =>
        match n.data with
        | .cell _ _ => .ok (modifyNode s target (removeDependentBase dep)) .unit
        | .liveValue _ _ => .ok (modifyNode s target (removeDependentBase dep)) .unit
        | .formula _ _ _ _ _ _ =>
          let didListen := shouldListen n
          let s1 := modifyNode s target (removeDependentBase dep)
          run fuel s1 (.updateDependencyListeners target didListen)
        | .subscription _ _ _ _ _ _ =>
          let wasListening := shouldListen n
          let s1 := modifyNode s target (removeDependentBase dep)
          .ok (updateSubscriptionListener s1 target wasListening) .unit
    | .updateDependencyListeners f didListen =>
      match getNode s f with
      | none => .out
      | some n =>
        let willListen := shouldListen n
        if willListen && !didListen then
          match n.data with
          | .formula _ _ _ _ (some entries) _ => run fuel s (.registerAll f entries)
          | _ => .ok s .unit
        else if !willListen && didListen then
          match n.data with
          | .formula _ _ _ _ (some entries) _ => run fuel s (.unregisterAll f entries)
          | _ => .ok s .unit
        else .ok s .unit
    | .callListeners id =>
      match getNode s id with
      | none => .out
      | some n =>
        match n.data with
        | .cell _ _ => run fuel s (.callListenersBase id)
        | .liveValue _ _ =>
          let (s', e) := mkError s .liveValueDependentError
          .thrown s' e
        | .subscription _ _ _ _ _ _ =>
          let (s', e) := mkError s .subscriptionDependentError
          .thrown s' e
        | .formula valid _ _ _ _ _ =>
          if valid = none then .ok s .unit
          else run fuel (formulaInvalidate s id) (.callListenersBase id)
    | .callListenersBase id =>
      match getNode s id with
      | none => .out
      | some n =>
        let s1 := { s with
          log := s.log ++ n.listeners.map (fun l => Event.listenerFired id l) }
        run fuel s1 (.notifyDependents n.dependents)
    | .notifyDependents ds =>
      match ds with
      | [] => .ok s .unit
      | d :: rest =>
        match run fuel s (.callListeners d) with
        | .ok s1 _ => run fuel s1 (.notifyDependents rest)
        | .thrown s1 v => .thrown s1 v
        | _ => .out

/-- Absence of a pending `Res.out`: project the state out of a completed
result (normal or thrown). -/
def resState : Res → Option EngineState
  | .ok s _ => some s
  | .thrown s _ => some s
  | .out => none

/-- `new Cell(value)`: version 0, no dependents, no listeners.  Returns the
new state and the fresh node index. -/
def newCell (s : EngineState) (value : Val) : EngineState × Nat :=
  ({ s with nodes := s.nodes ++ [⟨.cell 0 value, [], []⟩] }, s.nodes.length)

/-- `new Live.Value(value)`. -/
def newLiveValue (s : EngineState) (value : Val) : EngineState × Nat :=
  ({ s with nodes := s.nodes ++ [⟨.liveValue 0 value, [], []⟩] }, s.nodes.length)

/-- `new Formula(calculate)`: born invalid, version 0, no dependency set; the
closure is not invoked. -/
def newFormula (s : EngineState) (calculate : Expr) : EngineState × Nat :=
  ({ s with nodes :=
      s.nodes ++ [⟨.formula none 0 .normal .vnull none calculate, [], []⟩] },
   s.nodes.length)

/-- `new Subscription({get, addListener, removeListener})`: born invalid,
upstream listener not attached; the handlers are not invoked.  `extValue` is
the external source's current value. -/
def newSubscription (s : EngineState) (extValue : Val) : EngineState × Nat :=
  ({ s with nodes :=
      s.nodes ++ [⟨.subscription .sfalse 0 .normal .vnull false extValue, [], []⟩] },
   s.nodes.length)

/-- `Cell.set(newValue)`: fails inside a formula evaluation; is a no-op when
`objectIs` holds between the old and new value; otherwise bumps the version,
stores the value and schedules `_callListeners` through the scheduler hook
(the `pending` queue). -/
def cellSet (s : EngineState) (id : Nat) (newValue : Val) : Res :=
  match getNode s id with
  | none => .out
  | some n =>
    match n.data with
    | .cell _ value =>
      match s.currentFormulaDependencies with
      | some _ =>
        let (s1, e) := mkError s .setInsideFormula
        .thrown s1 e
      | none =>
        if objectIs value newValue then .ok s .unit
        else
          let s1 := modifyNode s id (fun n1 =>
            match n1.data with
            | .cell v1 _ => { n1 with data := NodeData.cell (v1 + 1) newValue }
            | _ => n1)
          .ok { s1 with pending := s1.pending ++ [id] } .unit
    | _ => .out

/-- `Live.Value.set(newValue)`: like `Cell.set` but the notification runs
synchronously through `super._callListeners()`. -/
def liveValueSet (fuel : Nat) (s : EngineState) (id : Nat) (newValue : Val) : Res :=
  match getNode s id with
  | none => .out
  | some n =>
    match n.data with
    | .liveValue _ value =>
      match s.currentFormulaDependencies with
      | some _ =>
        let (s1, e) := mkError s .setInsideFormula
        .thrown s1 e
      | none =>
        if objectIs value newValue then .ok s .unit
        else
          let s1 := modifyNode s id (fun n1 =>
            match n1.data with
            | .liveValue v1 _ => { n1 with data := NodeData.liveValue (v1 + 1) newValue }
            | _ => n1)
          match run fuel s1 (.callListenersBase id) with
          | .ok s2 _ => .ok s2 .unit
          | .thrown s2 v => .thrown s2 v
          | .out => .out
    | _ => .out

/-- `getWithoutListening()`: on a cell or live value, return the stored
value; on a formula or subscription, run `_getLatestVersion` and then return
the latest value or re-throw the latest abrupt completion. -/
def getWithoutListening (fuel : Nat) (s : EngineState) (id : Nat) : Res :=
  match getNode s id with
  | none => .out
  | some n =>
    match n.data with
    | .cell _ value => .ok s (.val value)
    | .liveValue _ value => .ok s (.val value)
    | .formula _ _ _ _ _ _ =>
      match run fuel s (.getLatestVersion id) with
      | .ok s1 _ =>
        match getNode s1 id with
        | some n1 =>
          match n1.data with
          | .formula _ _ completion value _ _ =>
            if completion = .normal then .ok s1 (.val value) else .thrown s1 value
          | _ => .out
        | none => .out
      | .thrown s1 v => .thrown s1 v
      | .out => .out
    | .subscription _ _ _ _ _ _ =>
      match run fuel s (.getLatestVersion id) with
      | .ok s1 _ =>
        match getNode s1 id with
        | some n1 =>
          match n1.data with
          | .subscription _ _ completion value _ _ =>
            if completion = .normal then .ok s1 (.val value) else .thrown s1 value
          | _ => .out
        | none => .out
      | .thrown s1 v => .thrown s1 v
      | .out => .out

/-- The public `calc()` entry point (`live()` in the `Live` family).  At the
top level there is no active evaluation frame, so this throws. -/
def calcPublic (fuel : Nat) (s : EngineState) (id : Nat) : Res :=
  run fuel s (.calcM id)

/-- Public `addListener(listener)`: the base body plus, for formulas, the
dependency-listener diff, and for subscriptions, the upstream-listener
update. -/
def addListenerPublic (fuel : Nat) (s : EngineState) (id : Nat) (l : Nat) : Res :=
  match getNode s id with
  | none => .out
  | some n =>
    match n.data with
    | .cell _ _ => .ok (modifyNode s id (addListenerBase l)) .unit
    | .liveValue _ _ => .ok (modifyNode s id (addListenerBase l)) .unit
    | .formula _ _ _ _ _ _ =>
      let didListen := shouldListen n
      let s1 := modifyNode s id (addListenerBase l)
      match run fuel s1 (.updateDependencyListeners id didListen) with
      | .ok s2 _ => .ok s2 .unit
      | .thrown s2 v => .thrown s2 v
      | .out => .out
    | .subscription _ _ _ _ _ _ =>
      let wasListening := shouldListen n
      let s1 := modifyNode s id (addListenerBase l)
      .ok (updateSubscriptionListener s1 id wasListening) .unit

/-- Public `removeListener(listener)`. -/
def removeListenerPublic (fuel : Nat) (s : EngineState) (id : Nat) (l : Nat) : Res :=
  match getNode s id with
  | none => .out
  | some n =>
    match n.data with
    | .cell _ _ => .ok (modifyNode s id (removeListenerBase l)) .unit
    | .liveValue _ _ => .ok (modifyNode s id (removeListenerBase l)) .unit
    | .formula _ _ _ _ _ _ =>
      let didListen := shouldListen n
      let s1 := modifyNode s id (removeListenerBase l)
      match run fuel s1 (.updateDependencyListeners id didListen) with
      | .ok s2 _ => .ok s2 .unit
      | .thrown s2 v => .thrown s2 v
      | .out => .out
    | .subscription _ _ _ _ _ _ =>
      let wasListening := shouldListen n
      let s1 := modifyNode s id (removeListenerBase l)
      .ok (updateSubscriptionListener s1 id wasListening) .unit

/-- The external source behind a subscription fires its change event.  If the
subscription's upstream listener is attached, its `_subscriptionListener`
runs: invalidate once, clear the cached value, and fan out through the base
`_callListeners`.  A subscription that never attached sees nothing. -/
def extFire (fuel : Nat) (s : EngineState) (id : Nat) : Res :=
  match getNode s id with
  | none => .out
  | some n =>
    match n.data with
    | .subscription valid _ _ _ attached _ =>
      if attached then
        if valid = SValid.sfalse then .ok s .unit
        else
          match run fuel (subInvalidate s id) (.callListenersBase id) with
          | .ok s1 _ => .ok s1 .unit
          | .thrown s1 v => .thrown s1 v
          | .out => .out
      else .ok s .unit
    | _ => .out

/-- The external source behind a subscription silently changes its value
(no change event). -/
def extSilentSet (s : EngineState) (id : Nat) (v : Val) : EngineState :=
  modifyNode s id (fun n =>
    match n.data with
    | .subscription valid version completion value attached _ =>
        { n with data := NodeData.subscription valid version completion value attached v }
    | _ => n)

/-- Run the oldest callback scheduled by `Cell.set`: the scheduled closure is
`() => { this._callListeners(); }` on the cell. -/
def flushOne (fuel : Nat) (s : EngineState) : Res :=
  match s.pending with
  | [] => .ok s .unit
  | id :: rest =>
    match run fuel { s with pending := rest } (.callListeners id) with
    | .ok s1 _ => .ok s1 .unit
    | .thrown s1 v => .thrown s1 v
    | .out => .out

/-- The empty engine: no nodes, no active frame or transaction,
`nextFormulaTransaction = 1`. -/
def initialState : EngineState := ⟨[], none, none, 1, [], [], 0⟩

/-- States reachable from the empty engine by completed public operations
(operations that returned or threw; a run that exhausts its fuel models a
stack overflow and does not produce a state). -/
inductive Reachable : EngineState → Prop where
  | init : Reachable initialState
  | newCellStep (s : EngineState) (v : Val) :
      Reachable s → Reachable (newCell s v).1
  | newLiveValueStep (s : EngineState) (v : Val) :
      Reachable s → Reachable (newLiveValue s v).1
  | newFormulaStep (s : EngineState) (e : Expr) :
      Reachable s → Reachable (newFormula s e).1
  | newSubscriptionStep (s : EngineState) (v : Val) :
      Reachable s → Reachable (newSubscription s v).1
  | cellSetStep (s s' : EngineState) (id : Nat) (v : Val) :
      Reachable s → resState (cellSet s id v) = some s' → Reachable s'
  | liveValueSetStep (fuel : Nat) (s s' : EngineState) (id : Nat) (v : Val) :
      Reachable s → resState (liveValueSet fuel s id v) = some s' → Reachable s'
  | getStep (fuel : Nat) (s s' : EngineState) (id : Nat) :
      Reachable s → resState (getWithoutListening fuel s id) = some s' → Reachable s'
  | calcStep (fuel : Nat) (s s' : EngineState) (id : Nat) :
      Reachable s → resState (calcPublic fuel s id) = some s' → Reachable s'
  | addListenerStep (fuel : Nat) (s s' : EngineState) (id l : Nat) :
      Reachable s → resState (addListenerPublic fuel s id l) = some s' → Reachable s'
  | removeListenerStep (fuel : Nat) (s s' : EngineState) (id l : Nat) :
      Reachable s → resState (removeListenerPublic fuel s id l) = some s' → Reachable s'
  | extFireStep (fuel : Nat) (s s' : EngineState) (id : Nat) :
      Reachable s → resState (extFire fuel s id) = some s' → Reachable s'
  | extSilentSetStep (s : EngineState) (id : Nat) (v : Val) :
      Reachable s → Reachable (extSilentSet s id v)
  | flushStep (fuel : Nat) (s s' : EngineState) :
      Reachable s → resState (flushOne fuel s) = some s' → Reachable s'

/-- Count of occurrences of an event in a log. -/
def countEvent (log : List Event) (e : Event) : Nat :=
  (log.filter (fun x => x = e)).length

/-- Project the state out of a result (total; concrete scenarios below only
apply it to completed results). -/
def stateOf (r : Res) : EngineState :=
  match r with
  | .ok s _ => s
  | .thrown s _ => s
  | .out => initialState

/-- Attached flag of a subscription node. -/
def subAttachedOf (s : EngineState) (id : Nat) : Option Bool :=
  match getNode s id with
  | some n =>
      match n.data with
      | .subscription _ _ _ _ attached _ => some attached
      | _ => none
  | none => none

/-! Concrete scenario: the two-stage chain with cancellation from the test
`skips updates for calculations that are the same when the root is
recalculated`.  Nodes: 0 = `Cell(1)`, 1 = `Cell(2)`, 2 = `F1 = Formula(c0 +
c1)`, 3 = `F2 = Formula(f2)`. -/

def chainInit : EngineState :=
  (newFormula (newFormula (newCell (newCell initialState (.vint 1)).1 (.vint 2)).1
    (.add (.readNode 0) (.readNode 1))).1 (.readNode 2)).1

def chainAfterRead : EngineState := stateOf (getWithoutListening 20 chainInit 3)

def chainAfterSets : EngineState :=
  stateOf (cellSet (stateOf (cellSet chainAfterRead 0 (.vint 2))) 1 (.vint 1))

/-! Concrete scenario: the re-validation diamond from the test `only
recursively calls _getLatestVersion() once per transaction`.  Nodes:
0 = `Cell(1)`, 1 = `F1 = Formula(c0)`, 2 = `F2 = Formula(f1)`,
3 = `F3 = Formula(f2 + f2 + f2 + f2 + f2)`. -/

def diamondInit : EngineState :=
  (newFormula (newFormula (newFormula (newCell initialState (.vint 1)).1
    (.readNode 0)).1 (.readNode 1)).1
    (.add (.readNode 2) (.add (.readNode 2)
      (.add (.readNode 2) (.add (.readNode 2) (.readNode 2)))))).1

/-! Concrete scenario for the version-bump-after-invalidation behaviour.
Nodes: 0 = `Cell(1)`, 1 = `F = Formula(c0; 0)` (reads the cell, returns 0),
listener 7 attached to F. -/

def invalInit : EngineState :=
  (newFormula (newCell initialState (.vint 1)).1 (.seq (.readNode 0) (.lit 0))).1

def invalListened : EngineState := stateOf (addListenerPublic 20 invalInit 1 7)

def invalAfterRead : EngineState := stateOf (getWithoutListening 20 invalListened 1)

def invalAfterWrite : EngineState :=
  stateOf (flushOne 20 (stateOf (cellSet invalAfterRead 0 (.vint 2))))

def invalAfterReread : EngineState := stateOf (getWithoutListening 20 invalAfterWrite 1)

/-! Concrete scenario: the listener diamond (F depends on G and H which both
depend on J).  Nodes: 0 = `J = Cell(1)`, 1 = `G = Formula(j)`,
2 = `H = Formula(j)`, 3 = `F = Formula(g + h)`, listener 9 on F. -/

def listenerDiamondInit : EngineState :=
  (newFormula (newFormula (newFormula (newCell initialState (.vint 1)).1
    (.readNode 0)).1 (.readNode 0)).1 (.add (.readNode 1) (.readNode 2))).1

def listenerDiamondReady : EngineState :=
  stateOf (getWithoutListening 20 (stateOf (addListenerPublic 20 listenerDiamondInit 3 9)) 3)

def listenerDiamondAfterWrite : EngineState :=
  stateOf (flushOne 20 (stateOf (cellSet listenerDiamondReady 0 (.vint 2))))

/-! Concrete scenario: a throwing formula.  Nodes: 0 = `Cell(5)`,
1 = `F = Formula(throw c0)`. -/

def throwInit : EngineState :=
  (newFormula (newCell initialState (.vint 5)).1 (.throwValue (.readNode 0))).1

def throwAfterRead : EngineState := stateOf (getWithoutListening 20 throwInit 1)

/-! Concrete scenario: subscription laziness.  Node 0 = subscription over an
external source whose value is 5; listener 4. -/

def subInit : EngineState := (newSubscription initialState (.vint 5)).1

def subIdleRead1 : EngineState := stateOf (getWithoutListening 20 subInit 0)

def subIdleRead2 : EngineState := stateOf (getWithoutListening 20 subIdleRead1 0)

def subListened : EngineState := stateOf (addListenerPublic 20 subIdleRead2 0 4)

def subListenedRead1 : EngineState := stateOf (getWithoutListening 20 subListened 0)

def subListenedRead2 : EngineState := stateOf (getWithoutListening 20 subListenedRead1 0)

def subAfterFire : EngineState := stateOf (extFire 20 subListenedRead2 0)

def subAfterFireRead : EngineState := stateOf (getWithoutListening 20 subAfterFire 0)

/-- The four node classes, for invariant bookkeeping. -/
inductive NKind where
  | cellK
  | liveValueK
  | formulaK
  | subscriptionK
deriving DecidableEq, Repr

def nodeKind (n : Node) : NKind :=
  match n.data with
  | .cell _ _ => .cellK
  | .liveValue _ _ => .liveValueK
  | .formula _ _ _ _ _ _ => .formulaK
  | .subscription _ _ _ _ _ _ => .subscriptionK

def kindsOfL (l : List Node) : List NKind := l.map nodeKind

/-- Every member of every node's `_dependents` set refers to a formula. -/
def depsOkL (l : List Node) : Prop :=
  ∀ n ∈ l, ∀ d ∈ n.dependents, (kindsOfL l)[d]? = some NKind.formulaK

/-- Every id in the scheduler queue refers to a cell. -/
def pendingOk (s : EngineState) : Prop :=
  ∀ id ∈ s.pending, (kindsOfL s.nodes)[id]? = some NKind.cellK

/-- The result is not a throw of the `Live.Value`/`Subscription`
"should not depend on anything" errors. -/
def depErrFree : Res → Prop
  | .thrown _ (.verr _ .liveValueDependentError) => False
  | .thrown _ (.verr _ .subscriptionDependentError) => False
  | _ => True

/-- What every engine-internal step preserves: the dependents-are-formulas
invariant, the per-node class of every node, and the scheduler queue. -/
def StateOk (s s' : EngineState) : Prop :=
  depsOkL s'.nodes ∧ kindsOfL s'.nodes = kindsOfL s.nodes ∧ s'.pending = s.pending

def ResOk (s : EngineState) : Res → Prop
  | .ok s' _ => StateOk s s'
  | .thrown s' _ => StateOk s s'
  | .out => True

/-- Precondition of the engine-internal requests: the node that is being
registered or unregistered as a dependent (always `this` in the source) is a
formula. -/
def ReqPre (s : EngineState) : Req → Prop
  | .registerAll self _ => (kindsOfL s.nodes)[self]? = some NKind.formulaK
  | .unregisterAll self _ => (kindsOfL s.nodes)[self]? = some NKind.formulaK
  | .registerDiff self _ _ => (kindsOfL s.nodes)[self]? = some NKind.formulaK
  | .addDependent _ dep => (kindsOfL s.nodes)[dep]? = some NKind.formulaK
  | .removeDependent _ dep => (kindsOfL s.nodes)[dep]? = some NKind.formulaK
  | .updateDependencyListeners f _ => (kindsOfL s.nodes)[f]? = some NKind.formulaK
  | _ => True

/-- The listener set of a node, if the node exists. -/
def listenersOf (s : EngineState) (f : Nat) : Option (List Nat) :=
  (getNode s f).map Node.listeners

/-- The node `f` exists, is a formula, and its `_valid` is `false`. -/
def formulaIsInvalid (s : EngineState) (f : Nat) : Bool :=
  match getNode s f with
  | some n =>
      match n.data with
      | .formula valid _ _ _ _ _ => decide (valid = none)
      | _ => false
  | none => false

/-- The node `f` exists and is a formula node. -/
def isFormulaAt (s : EngineState) (f : Nat) : Bool :=
  match getNode s f with
  | some n =>
      match n.data with
      | .formula _ _ _ _ _ _ => true
      | _ => false
  | none => false

/-- Listener `l` occurs at most once in `f`'s listener list (always true in
reachable states, where listener lists are maintained as sets). -/
def listenerCountOk (s : EngineState) (f l : Nat) : Bool :=
  match getNode s f with
  | some n => n.listeners.count l ≤ 1
  | none => true

/-- How often listener `l` of node `f` has fired so far. -/
def firedCount (s : EngineState) (f l : Nat) : Nat :=
  countEvent s.log (.listenerFired f l)

/-- A single fan-out step observed at the pair `(f, l)`: the listener fires
at most once, and if it fired then `f` is left invalid (the de-duplication
state); `f`'s listener set and formula-kind are untouched. -/
def FanoutStep (f l : Nat) (s s1 : EngineState) : Prop :=
  firedCount s f l ≤ firedCount s1 f l ∧
  firedCount s1 f l ≤ firedCount s f l + 1 ∧
  (firedCount s f l < firedCount s1 f l → formulaIsInvalid s1 f = true) ∧
  listenersOf s1 f = listenersOf s f ∧
  isFormulaAt s1 f = isFormulaAt s f

/-- Once `f` is invalid, a fan-out step is silent for `(f, l)`: the guarded
`_callListeners` dispatch short-circuits, so the count is frozen and `f`
stays invalid. -/
def SilentStep (f l : Nat) (s s1 : EngineState) : Prop :=
  formulaIsInvalid s f = true →
  firedCount s1 f l = firedCount s f l ∧ formulaIsInvalid s1 f = true

/-- A step that does not touch `f`'s row at all for the purposes of the
fan-out argument: count, invalidity, listener set and kind are preserved. -/
def PureStep (f l : Nat) (s s1 : EngineState) : Prop :=
  firedCount s1 f l = firedCount s f l ∧
  (formulaIsInvalid s f = true → formulaIsInvalid s1 f = true) ∧
  listenersOf s1 f = listenersOf s f ∧
  isFormulaAt s1 f = isFormulaAt s f

/-- Result form of the fan-out step for the dispatch-guarded requests
(`_callListeners` and the dependent loop): at most one fire, and silent when
`f` is already invalid. -/
def FanoutRes (f l : Nat) (s : EngineState) : Res → Prop
  | .ok s1 _ => FanoutStep f l s s1 ∧ SilentStep f l s s1
  | .thrown s1 _ => FanoutStep f l s s1 ∧ SilentStep f l s s1
  | .out => True

/-- Result form for the base-class `_callListeners` body on node `x`: the
base body fires its own listeners unconditionally, so silence under
invalidity is only guaranteed when `x` is not `f` itself. -/
def FanoutBaseRes (f l x : Nat) (s : EngineState) : Res → Prop
  | .ok s1 _ => FanoutStep f l s s1 ∧ (x ≠ f → SilentStep f l s s1)
  | .thrown s1 _ => FanoutStep f l s s1 ∧ (x ≠ f → SilentStep f l s s1)
  | .out => True

/-- A one-formula state mid-transaction (transaction 1 active, the formula
already validated in it); used to exercise the transaction short-circuit. -/
def txState : EngineState :=
  { nodes := [⟨.formula (some 1) 4 .normal (.vint 9) (some []) (.lit 0), [], []⟩],
    currentFormulaDependencies := none,
    currentFormulaTransaction := some 1,
    nextFormulaTransaction := 2,
    pending := [],
    log := [],
    nextErrId := 0 }

/-! Helper lemmas about the node heap. -/

theorem listModify_get_self (l : List Node) (i : Nat) (f : Node → Node) :
    (listModify l i f)[i]? = (l[i]?).map f := by
  induction l generalizing i with
  | nil => simp [listModify]
  | cons n rest ih =>
    cases i with
    | zero => simp [listModify]
    | succ j => simpa [listModify] using ih j

theorem listModify_get_ne (l : List Node) (i j : Nat) (f : Node → Node) (h : i ≠ j) :
    (listModify l i f)[j]? = l[j]? := by
  induction l generalizing i j with
  | nil => simp [listModify]
  | cons n rest ih =>
    cases i with
    | zero =>
      cases j with
      | zero => exact absurd rfl h
      | succ j1 => simp [listModify]
    | succ i1 =>
      cases j with
      | zero => simp [listModify]
      | succ j1 =>
        simpa [listModify] using ih i1 j1 (by omega)

theorem listModify_self (l : List Node) (i : Nat) (f : Node → Node) (n : Node)
    (h : l[i]? = some n) (hf : f n = n) : listModify l i f = l := by
  induction l generalizing i with
  | nil => simp [listModify]
  | cons m rest ih =>
    cases i with
    | zero =>
      simp only [List.getElem?_cons_zero, Option.some.injEq] at h
      cases h
      simp [listModify, hf]
    | succ j =>
      simp only [List.getElem?_cons_succ] at h
      simp [listModify, ih j h]

theorem getNode_modifyNode_self (s : EngineState) (id : Nat) (f : Node → Node) :
    getNode (modifyNode s id f) id = (getNode s id).map f := by
  simp [getNode, modifyNode, listModify_get_self]

theorem getNode_modifyNode_ne (s : EngineState) (id j : Nat) (f : Node → Node)
    (h : id ≠ j) : getNode (modifyNode s id f) j = getNode s j := by
  simp [getNode, modifyNode, listModify_get_ne _ _ _ _ h]

theorem modifyNode_id_eq (s : EngineState) (id : Nat) (f : Node → Node) (n : Node)
    (h : getNode s id = some n) (hf : f n = n) : modifyNode s id f = s := by
  simp only [getNode] at h
  simp [modifyNode, listModify_self _ _ _ _ h hf]

theorem countEvent_append (a b : List Event) (e : Event) :
    countEvent (a ++ b) e = countEvent a e + countEvent b e := by
  simp [countEvent, List.filter_append]

theorem countEvent_map_fired (L : List Nat) (x f l : Nat) :
    countEvent (L.map (fun j => Event.listenerFired x j)) (.listenerFired f l) =
      if x = f then L.count l else 0 := by
  induction L with
  | nil => simp [countEvent]
  | cons a t ih =>
    simp only [List.map_cons, countEvent, List.filter_cons] at *
    by_cases hx : x = f
    · subst hx
      by_cases ha : a = l
      · subst ha
        simp_all [List.count_cons]
      · simp_all [List.count_cons, Ne.symm ha]
    · simp_all [hx]

theorem listenersOf_invalidate (s : EngineState) (y f : Nat) :
    listenersOf (formulaInvalidate s y) f = listenersOf s f := by
  by_cases h : y = f
  · subst h
    rw [listenersOf, listenersOf, formulaInvalidate, getNode_modifyNode_self]
    cases hg : getNode s y with
    | none => rfl
    | some n =>
      obtain ⟨d0, dep0, lis0⟩ := n
      cases d0 <;> rfl
  · rw [listenersOf, listenersOf, formulaInvalidate, getNode_modifyNode_ne _ _ _ _ h]

theorem isFormulaAt_invalidate (s : EngineState) (y f : Nat) :
    isFormulaAt (formulaInvalidate s y) f = isFormulaAt s f := by
  by_cases h : y = f
  · subst h
    rw [isFormulaAt, isFormulaAt, formulaInvalidate, getNode_modifyNode_self]
    cases hg : getNode s y with
    | none => rfl
    | some n =>
      obtain ⟨d0, dep0, lis0⟩ := n
      cases d0 <;> rfl
  · rw [isFormulaAt, isFormulaAt, formulaInvalidate, getNode_modifyNode_ne _ _ _ _ h]

theorem formulaIsInvalid_invalidate_mono (s : EngineState) (y f : Nat)
    (h : formulaIsInvalid s f = true) :
    formulaIsInvalid (formulaInvalidate s y) f = true := by
  by_cases hy : y = f
  · subst hy
    rw [formulaIsInvalid, formulaInvalidate, getNode_modifyNode_self]
    rw [formulaIsInvalid] at h
    cases hg : getNode s y with
    | none => rw [hg] at h; cases h
    | some n =>
      obtain ⟨d0, dep0, lis0⟩ := n
      cases d0 <;> simp_all
  · rw [formulaIsInvalid, formulaInvalidate, getNode_modifyNode_ne _ _ _ _ hy]
    rw [formulaIsInvalid] at h
    exact h

theorem formulaIsInvalid_invalidate_self (s : EngineState) (f : Nat) (n : Node)
    (valid : Option Nat) (version : Nat) (c : CompletionKind) (v : Val)
    (d : Option (List (Nat × Nat))) (e : Expr)
    (hg : getNode s f = some n) (hd : n.data = .formula valid version c v d e) :
    formulaIsInvalid (formulaInvalidate s f) f = true := by
  rw [formulaIsInvalid, formulaInvalidate, getNode_modifyNode_self, hg]
  obtain ⟨d0, dep0, lis0⟩ := n
  simp only at hd
  subst hd
  rfl

theorem FanoutStep_refl (f l : Nat) (s : EngineState) : FanoutStep f l s s :=
  ⟨Nat.le_refl _, Nat.le_succ _, fun h => absurd h (Nat.lt_irrefl _), rfl, rfl⟩

theorem SilentStep_refl (f l : Nat) (s : EngineState) : SilentStep f l s s :=
  fun h => ⟨rfl, h⟩

theorem PureStep_refl (f l : Nat) (s : EngineState) : PureStep f l s s :=
  ⟨rfl, fun h => h, rfl, rfl⟩

theorem FanoutStep_comp_pure (f l : Nat) (s s1 s2 : EngineState)
    (h1 : PureStep f l s s1) (h2 : FanoutStep f l s1 s2) : FanoutStep f l s s2 := by
  obtain ⟨hc, hi, hL, hk⟩ := h1
  obtain ⟨h21, h22, h23, h24, h25⟩ := h2
  exact ⟨by omega, by omega, fun hlt => h23 (by omega), hL ▸ h24, hk ▸ h25⟩

theorem SilentStep_comp_pure (f l : Nat) (s s1 s2 : EngineState)
    (h1 : PureStep f l s s1) (h2 : SilentStep f l s1 s2) : SilentStep f l s s2 := by
  intro hv
  obtain ⟨hc, hi, hL, hk⟩ := h1
  obtain ⟨h21, h22⟩ := h2 (hi hv)
  exact ⟨by omega, h22⟩

theorem FanoutStep_trans (f l : Nat) (s s1 s2 : EngineState)
    (h1 : FanoutStep f l s s1) (h2 : FanoutStep f l s1 s2)
    (h2s : SilentStep f l s1 s2) : FanoutStep f l s s2 := by
  obtain ⟨h11, h12, h13, h14, h15⟩ := h1
  obtain ⟨h21, h22, h23, h24, h25⟩ := h2
  by_cases hfired : firedCount s f l < firedCount s1 f l
  · obtain ⟨hc, hv⟩ := h2s (h13 hfired)
    exact ⟨by omega, by omega, fun _ => hv, h14 ▸ h24, h15 ▸ h25⟩
  · have heq : firedCount s1 f l = firedCount s f l := by omega
    exact ⟨by omega, by omega, fun hlt => h23 (by omega), h14 ▸ h24, h15 ▸ h25⟩

theorem SilentStep_trans (f l : Nat) (s s1 s2 : EngineState)
    (h1 : SilentStep f l s s1) (h2 : SilentStep f l s1 s2) : SilentStep f l s s2 := by
  intro hv
  obtain ⟨hc1, hv1⟩ := h1 hv
  obtain ⟨hc2, hv2⟩ := h2 hv1
  exact ⟨by omega, hv2⟩

theorem countOk_transfer (s s1 : EngineState) (f l : Nat)
    (hL : listenersOf s1 f = listenersOf s f)
    (h : ∀ n, getNode s f = some n → n.listeners.count l ≤ 1) :
    ∀ n, getNode s1 f = some n → n.listeners.count l ≤ 1 := by
  intro n1 h1
  have hl1 : listenersOf s1 f = some n1.listeners := by rw [listenersOf, h1]; rfl
  rw [hL] at hl1
  cases hg : getNode s f with
  | none => rw [listenersOf, hg] at hl1; cases hl1
  | some n =>
    rw [listenersOf, hg] at hl1
    simp only [Option.map_some', Option.some.injEq] at hl1
    rw [← hl1]
    exact h n hg

theorem PureStep_invalidate (f l : Nat) (s : EngineState) (y : Nat) :
    PureStep f l s (formulaInvalidate s y) :=
  ⟨rfl, formulaIsInvalid_invalidate_mono s y f, listenersOf_invalidate s y f,
    isFormulaAt_invalidate s y f⟩

theorem not_formula_ne (s : EngineState) (f x : Nat) (n : Node)
    (hf : isFormulaAt s f = true) (hx : getNode s x = some n)
    (hd : ∀ valid version c v d e, n.data ≠ .formula valid version c v d e) :
    x ≠ f := by
  intro he
  subst he
  rw [isFormulaAt, hx] at hf
  obtain ⟨d0, dep0, lis0⟩ := n
  cases d0 with
  | formula valid version c v d e => exact hd valid version c v d e rfl
  | cell v1 v2 => cases hf
  | liveValue v1 v2 => cases hf
  | subscription a b c d e g => cases hf

theorem PureStep_err (f l : Nat) (s : EngineState) (k : Nat) :
    PureStep f l s { s with nextErrId := k } :=
  ⟨rfl, fun h => h, rfl, rfl⟩

theorem FanoutRes_pure_thrown (f l : Nat) (s s1 : EngineState) (v : Val)
    (hp : PureStep f l s s1) : FanoutRes f l s (.thrown s1 v) :=
  ⟨⟨Nat.le_of_eq hp.1.symm, by rw [hp.1]; exact Nat.le_succ _,
    fun h => absurd h (by rw [hp.1]; exact Nat.lt_irrefl _),
    hp.2.2.1, hp.2.2.2⟩,
   fun hv => ⟨hp.1, hp.2.1 hv⟩⟩

theorem FanoutRes_comp_pure (f l : Nat) (s s1 : EngineState) (r : Res)
    (hp : PureStep f l s s1) (h : FanoutRes f l s1 r) : FanoutRes f l s r := by
  cases r with
  | ok s2 v =>
    exact ⟨FanoutStep_comp_pure f l s s1 s2 hp h.1,
           SilentStep_comp_pure f l s s1 s2 hp h.2⟩
  | thrown s2 v =>
    exact ⟨FanoutStep_comp_pure f l s s1 s2 hp h.1,
           SilentStep_comp_pure f l s s1 s2 hp h.2⟩
  | out => trivial

theorem FanoutRes_dispatch (f l x : Nat) (s s1 : EngineState) (r : Res)
    (hp : PureStep f l s s1)
    (hns : formulaIsInvalid s f = true → x ≠ f)
    (h : FanoutBaseRes f l x s1 r) : FanoutRes f l s r := by
  cases r with
  | ok s2 v =>
    exact ⟨FanoutStep_comp_pure f l s s1 s2 hp h.1,
           fun hv => SilentStep_comp_pure f l s s1 s2 hp (h.2 (hns hv)) hv⟩
  | thrown s2 v =>
    exact ⟨FanoutStep_comp_pure f l s s1 s2 hp h.1,
           fun hv => SilentStep_comp_pure f l s s1 s2 hp (h.2 (hns hv)) hv⟩
  | out => trivial

theorem FanoutBaseRes_of_res (f l x : Nat) (s : EngineState) (r : Res)
    (h : FanoutRes f l s r) : FanoutBaseRes f l x s r := by
  cases r with
  | ok s2 v => exact ⟨h.1, fun _ => h.2⟩
  | thrown s2 v => exact ⟨h.1, fun _ => h.2⟩
  | out => trivial

theorem FanoutRes_base_self (f l : Nat) (s s2 : EngineState) (r : Res) (cnt : Nat)
    (hcnt : cnt ≤ 1)
    (hcount : firedCount s2 f l = firedCount s f l + cnt)
    (hv2 : formulaIsInvalid s2 f = true)
    (hL : listenersOf s2 f = listenersOf s f)
    (hk : isFormulaAt s2 f = isFormulaAt s f)
    (h : FanoutRes f l s2 r) : FanoutBaseRes f l f s r := by
  cases r with
  | ok s3 v =>
    obtain ⟨hstep, hsil⟩ := h
    obtain ⟨hc3, hv3⟩ := hsil hv2
    exact ⟨⟨by omega, by omega, fun _ => hv3,
            by rw [hstep.2.2.2.1, hL], by rw [hstep.2.2.2.2, hk]⟩,
           fun hne => absurd rfl hne⟩
  | thrown s3 v =>
    obtain ⟨hstep, hsil⟩ := h
    obtain ⟨hc3, hv3⟩ := hsil hv2
    exact ⟨⟨by omega, by omega, fun _ => hv3,
            by rw [hstep.2.2.2.1, hL], by rw [hstep.2.2.2.2, hk]⟩,
           fun hne => absurd rfl hne⟩
  | out => trivial

theorem fanout_once : ∀ (fuel : Nat) (f l : Nat) (s : EngineState),
    isFormulaAt s f = true →
    (∀ n, getNode s f = some n → n.listeners.count l ≤ 1) →
    (∀ x, FanoutRes f l s (run fuel s (.callListeners x))) ∧
    (∀ x, (x = f → formulaIsInvalid s f = true) →
        FanoutBaseRes f l x s (run fuel s (.callListenersBase x))) ∧
    (∀ ds, FanoutRes f l s (run fuel s (.notifyDependents ds))) := by
  intro fuel
  induction fuel with
  | zero =>
    intro f l s hf hc
    refine ⟨?_, ?_, ?_⟩ <;> intro x <;> (try intro _) <;> simp only [run] <;> trivial
  | succ fuel ih =>
    intro f l s hf hc
    refine ⟨?_, ?_, ?_⟩
    · intro x
      simp only [run, mkError]
      split
      · trivial
      · rename_i n hn
        split
        · rename_i ver v0 hdata
          have hxf : x ≠ f := not_formula_ne s f x n hf hn
            (fun a b c2 v2 d2 e2 hcon => by rw [hdata] at hcon; cases hcon)
          exact FanoutRes_dispatch f l x s s _ (PureStep_refl f l s) (fun _ => hxf)
            ((ih f l s hf hc).2.1 x (fun he => absurd he hxf))
        · exact FanoutRes_pure_thrown f l s _ _ (PureStep_err f l s _)
        · exact FanoutRes_pure_thrown f l s _ _ (PureStep_err f l s _)
        · rename_i valid version c v d e hdata
          split
          · exact ⟨FanoutStep_refl f l s, SilentStep_refl f l s⟩
          · rename_i hvalid
            have hpure := PureStep_invalidate f l s x
            have hf1 : isFormulaAt (formulaInvalidate s x) f = true := by
              rw [isFormulaAt_invalidate]; exact hf
            have hc1 := countOk_transfer s (formulaInvalidate s x) f l
              (listenersOf_invalidate s x f) hc
            have hpre1 : x = f → formulaIsInvalid (formulaInvalidate s x) f = true := by
              intro he
              subst he
              exact formulaIsInvalid_invalidate_self s x n valid version c v d e hn hdata
            have hns : formulaIsInvalid s f = true → x ≠ f := by
              intro hv he
              subst he
              simp only [formulaIsInvalid, hn, hdata, decide_eq_true_eq] at hv
              exact hvalid hv
            exact FanoutRes_dispatch f l x s _ _ hpure hns
              ((ih f l (formulaInvalidate s x) hf1 hc1).2.1 x hpre1)
    · intro x hpre
      simp only [run]
      split
      · trivial
      · rename_i n hn
        have hnot := (ih f l
          { s with log := s.log ++ n.listeners.map (fun j => Event.listenerFired x j) }
          hf hc).2.2 n.dependents
        by_cases hxf : x = f
        · subst hxf
          have hcnt : n.listeners.count l ≤ 1 := hc n hn
          have hcount : firedCount
              { s with log := s.log ++ n.listeners.map (fun j => Event.listenerFired x j) }
              x l = firedCount s x l + n.listeners.count l := by
            show countEvent (s.log ++ n.listeners.map (fun j => Event.listenerFired x j))
              (.listenerFired x l) = _
            rw [countEvent_append, countEvent_map_fired, if_pos rfl]
            rfl
          exact FanoutRes_base_self x l s _ _ _ hcnt hcount (hpre rfl) rfl rfl hnot
        · have hpure : PureStep f l s
              { s with log := s.log ++ n.listeners.map (fun j => Event.listenerFired x j) } := by
            refine ⟨?_, fun h => h, rfl, rfl⟩
            show countEvent (s.log ++ n.listeners.map (fun j => Event.listenerFired x j))
              (.listenerFired f l) = _
            rw [countEvent_append, countEvent_map_fired, if_neg hxf]
            rfl
          exact FanoutBaseRes_of_res f l x s _ (FanoutRes_comp_pure f l s _ _ hpure hnot)
    · intro ds
      simp only [run]
      split
      · exact ⟨FanoutStep_refl f l s, SilentStep_refl f l s⟩
      · rename_i d rest
        have hcall := (ih f l s hf hc).1 d
        split
        · rename_i s1 v heq
          rw [heq] at hcall
          have hf1 : isFormulaAt s1 f = true := by rw [hcall.1.2.2.2.2]; exact hf
          have hc1 := countOk_transfer s s1 f l hcall.1.2.2.2.1 hc
          have hrest := (ih f l s1 hf1 hc1).2.2 rest
          cases hr : run fuel s1 (.notifyDependents rest) with
          | ok s2 v2 =>
            rw [hr] at hrest
            exact ⟨FanoutStep_trans f l s s1 s2 hcall.1 hrest.1 hrest.2,
                   SilentStep_trans f l s s1 s2 hcall.2 hrest.2⟩
          | thrown s2 v2 =>
            rw [hr] at hrest
            exact ⟨FanoutStep_trans f l s s1 s2 hcall.1 hrest.1 hrest.2,
                   SilentStep_trans f l s s1 s2 hcall.2 hrest.2⟩
          | out => trivial
        · rename_i s1 v heq
          rw [heq] at hcall
          exact hcall
        · trivial

theorem countOk_of_listenerCountOk (s : EngineState) (f l : Nat)
    (h : listenerCountOk s f l = true) :
    ∀ n, getNode s f = some n → n.listeners.count l ≤ 1 := by
  intro n hn
  simp only [listenerCountOk, hn, decide_eq_true_eq] at h
  exact h

/-- C7: for every cell `c` and value `v` with the equality predicate holding
between `v` and `c`'s current value, `c.set(v)` is a no-op: the returned
state is the input state itself, so the cell's version and stored value are
unchanged, nothing is appended to the scheduler queue, and no listener
anywhere in the graph can ever fire as a result of the call. -/
theorem cell_set_equal_noop (s : EngineState) (id : Nat) (n : Node) (ver : Nat)
    (v0 v : Val) (h1 : getNode s id = some n) (h2 : n.data = .cell ver v0)
    (h3 : s.currentFormulaDependencies = none) (h4 : objectIs v0 v = true) :
    cellSet s id v = .ok s .unit := by
  simp [cellSet, h1, h2, h3, h4]

theorem cell_set_equal_noop_witness :
    cellSet (newCell initialState (.vint 1)).1 0 (.vint 1) =
      .ok (newCell initialState (.vint 1)).1 .unit :=
  cell_set_equal_noop (newCell initialState (.vint 1)).1 0
    ⟨.cell 0 (.vint 1), [], []⟩ 0 (.vint 1) (.vint 1) rfl rfl rfl (by decide)

/-- C8: `calc()` with no active formula-evaluation frame throws immediately —
the result state differs from the input only in the error-identity allocator,
so no node changed and no closure ran (the log is unchanged); and `cell.set`
with an active frame throws and likewise leaves every node (in particular the
cell's value and version) unchanged. -/
theorem out_of_context_errors (fuel : Nat) (s s' : EngineState) (id id' : Nat)
    (n : Node) (ver : Nat) (v0 v : Val) (fr : List (Nat × Nat))
    (h1 : s.currentFormulaDependencies = none)
    (h2 : getNode s' id' = some n) (h3 : n.data = .cell ver v0)
    (h4 : s'.currentFormulaDependencies = some fr) :
    calcPublic (fuel + 1) s id =
      .thrown { s with nextErrId := s.nextErrId + 1 }
        (.verr s.nextErrId .outOfContextCalc) ∧
    cellSet s' id' v =
      .thrown { s' with nextErrId := s'.nextErrId + 1 }
        (.verr s'.nextErrId .setInsideFormula) := by
  constructor
  · simp [calcPublic, run, h1, mkError]
  · simp [cellSet, h2, h3, h4, mkError]

theorem out_of_context_errors_witness :
    calcPublic 3 (newCell initialState (.vint 1)).1 0 =
      .thrown { (newCell initialState (.vint 1)).1 with nextErrId := 1 }
        (.verr 0 .outOfContextCalc) ∧
    cellSet { (newCell initialState (.vint 1)).1 with
        currentFormulaDependencies := some [] } 0 (.vint 2) =
      .thrown { (newCell initialState (.vint 1)).1 with
          currentFormulaDependencies := some [], nextErrId := 1 }
        (.verr 0 .setInsideFormula) :=
  out_of_context_errors 2 (newCell initialState (.vint 1)).1
    { (newCell initialState (.vint 1)).1 with currentFormulaDependencies := some [] }
    0 0 ⟨.cell 0 (.vint 1), [], []⟩ 0 (.vint 1) (.vint 2) [] rfl rfl rfl rfl

/-- C2: early cutoff across the chain `C1 = Cell(1)`, `C2 = Cell(2)`,
`F1 = Formula(c1 + c2)`, `F2 = Formula(f1)`.  The first read of F2 gives 3
and runs each closure once; after `C1.set(2)` and `C2.set(1)` the second read
of F2 again returns 3, runs F1's closure exactly once more, does not run F2's
closure at all, and F1's version is unchanged. -/
theorem chain_early_cutoff :
    getWithoutListening 20 chainInit 3 = .ok chainAfterRead (.val (.vint 3)) ∧
    countEvent chainAfterRead.log (.closureRun 2) = 1 ∧
    countEvent chainAfterRead.log (.closureRun 3) = 1 ∧
    getWithoutListening 20 chainAfterSets 3 =
      .ok (stateOf (getWithoutListening 20 chainAfterSets 3)) (.val (.vint 3)) ∧
    countEvent (stateOf (getWithoutListening 20 chainAfterSets 3)).log (.closureRun 2) =
      countEvent chainAfterSets.log (.closureRun 2) + 1 ∧
    countEvent (stateOf (getWithoutListening 20 chainAfterSets 3)).log (.closureRun 3) =
      countEvent chainAfterSets.log (.closureRun 3) ∧
    formulaVersionOf (stateOf (getWithoutListening 20 chainAfterSets 3)) 2 =
      formulaVersionOf chainAfterSets 2 ∧
    formulaVersionOf chainAfterSets 2 = some 1 := by
  decide

/-- C1: validation happens at most once per transaction.  First, the general
short-circuit: whenever a formula's `_valid` equals the active transaction
identifier, `_getLatestVersion` returns the cached version with the state
completely unchanged — no dependency walk, no closure run, no log entry.
Second, on the diamond `Cell → F1 → F2 → F3 = f2+f2+f2+f2+f2` a single
outermost read of F3 runs each formula's closure exactly once even though F2
is referenced five times. -/
theorem validate_once_per_transaction :
    (∀ (fuel : Nat) (s : EngineState) (id : Nat) (n : Node) (t version : Nat)
       (c : CompletionKind) (v : Val) (d : Option (List (Nat × Nat))) (e : Expr),
        getNode s id = some n → n.data = .formula (some t) version c v d e →
        s.currentFormulaTransaction = some t →
        run (fuel + 1) s (.getLatestVersion id) = .ok s (.ver version)) ∧
    getWithoutListening 20 diamondInit 3 =
      .ok (stateOf (getWithoutListening 20 diamondInit 3)) (.val (.vint 5)) ∧
    countEvent (stateOf (getWithoutListening 20 diamondInit 3)).log (.closureRun 1) = 1 ∧
    countEvent (stateOf (getWithoutListening 20 diamondInit 3)).log (.closureRun 2) = 1 ∧
    countEvent (stateOf (getWithoutListening 20 diamondInit 3)).log (.closureRun 3) = 1 := by
  refine ⟨?_, by decide, by decide, by decide, by decide⟩
  intro fuel s id n t version c v d e h1 h2 h3
  simp [run, h1, h2, h3]

theorem validate_once_per_transaction_witness :
    run 5 txState (.getLatestVersion 0) = .ok txState (.ver 4) :=
  validate_once_per_transaction.1 4 txState 0
    ⟨.formula (some 1) 4 .normal (.vint 9) (some []) (.lit 0), [], []⟩
    1 4 .normal (.vint 9) (some []) (.lit 0) rfl rfl rfl

/-- C4: listener fan-out is de-duplicated by invalidation.  First, the
general mechanism: `_callListeners` on a formula whose `_valid` is already
`false` returns immediately with the state unchanged — its listeners are not
called and its dependents are not re-notified.  Second, the general
consequence, for every state, every fuel and every notification entry point
`x`: for a formula `f` whose listener list contains `l` at most once, the
entire fan-out of a single notification fires `(f, l)` at most once, and if
it fired then `f` is left invalid, so any further path of the same fan-out
reaching `f` is silent (`FanoutRes` packages exactly this).  Third, on the
diamond `J = Cell(1)`, `G = Formula(j)`, `H = Formula(j)`,
`F = Formula(g + h)` with a listener on F, a single accepted write to J
(plus its scheduled notification) fires F's listener exactly once even
though F depends on J through two paths. -/
theorem listener_fanout_dedup :
    (∀ (fuel : Nat) (s : EngineState) (id : Nat) (n : Node) (version : Nat)
       (c : CompletionKind) (v : Val) (d : Option (List (Nat × Nat))) (e : Expr),
        getNode s id = some n → n.data = .formula none version c v d e →
        run (fuel + 1) s (.callListeners id) = .ok s .unit) ∧
    (∀ (fuel : Nat) (s : EngineState) (f l x : Nat),
        isFormulaAt s f = true → listenerCountOk s f l = true →
        FanoutRes f l s (run fuel s (.callListeners x))) ∧
    countEvent listenerDiamondReady.log (.listenerFired 3 9) = 0 ∧
    countEvent listenerDiamondAfterWrite.log (.listenerFired 3 9) = 1 := by
  refine ⟨?_, ?_, by decide, by decide⟩
  · intro fuel s id n version c v d e h1 h2
    simp [run, h1, h2]
  · intro fuel s f l x hf hcb
    exact (fanout_once fuel f l s hf (countOk_of_listenerCountOk s f l hcb)).1 x

theorem listener_fanout_dedup_witness :
    (run 5 invalInit (.callListeners 1) = .ok invalInit .unit) ∧
    FanoutRes 3 9 listenerDiamondReady
      (run 9 listenerDiamondReady (.callListeners 0)) :=
  ⟨listener_fanout_dedup.1 4 invalInit 1
      ⟨.formula none 0 .normal .vnull none (.seq (.readNode 0) (.lit 0)), [], []⟩
      0 .normal .vnull none (.seq (.readNode 0) (.lit 0)) (by decide) rfl,
    listener_fanout_dedup.2.1 9 listenerDiamondReady 3 9 0 (by decide) (by decide)⟩

/-- C3 counterexample: on `C = Cell(1)`, `F = Formula(c; 0)` with a listener
on F, the first read stores the pair `(normal, 0)` at version 1; the write
`C.set(2)` invalidates F and clears its cached value to `null`; the next read
recomputes F to the same observable pair `(normal, 0)`, yet the version is
incremented to 2 — the version changed although the observable (value,
completion) pair did not, refuting the claimed equivalence for invalidations
that clear the cached value. -/
theorem version_bump_counterexample :
    (match getNode invalAfterRead 1 with
     | some n =>
        match n.data with
        | .formula _ version c v _ _ => some (version, c, v)
        | _ => none
     | none => none) = some (1, .normal, .vint 0) ∧
    (match getNode invalAfterWrite 1 with
     | some n =>
        match n.data with
        | .formula valid _ _ v _ _ => some (valid, v)
        | _ => none
     | none => none) = some (none, .vnull) ∧
    getWithoutListening 20 invalAfterWrite 1 = .ok invalAfterReread (.val (.vint 0)) ∧
    countEvent invalAfterReread.log (.closureRun 1) = 2 ∧
    formulaVersionOf invalAfterReread 1 = some 2 := by
  decide

/-- C3 (amended): after a recomputation the version is incremented iff the
new value is not `Object.is`-equal to the *currently stored* value or the new
completion kind differs from the stored one; and an invalidation that clears
the cache stores `null` as the value (keeping the completion), so a
recomputation that reproduces the pre-invalidation value after such an
invalidation does increment the version. -/
theorem version_bump_against_stored_value :
    (∀ (s : EngineState) (id : Nat) (n : Node) (valid : Option Nat)
       (version : Nat) (completion : CompletionKind) (value : Val)
       (deps : Option (List (Nat × Nat))) (calcE : Expr)
       (c1 : CompletionKind) (v1 : Val),
        getNode s id = some n →
        n.data = .formula valid version completion value deps calcE →
        (((objectIs value v1 && decide (completion = c1)) = true →
            formulaUpdateValue s id c1 v1 = s) ∧
         ((objectIs value v1 && decide (completion = c1)) = false →
            getNode (formulaUpdateValue s id c1 v1) id =
              some { n with data := .formula valid (version + 1) c1 v1 deps calcE }))) ∧
    (∀ (s : EngineState) (id : Nat) (n : Node) (valid : Option Nat)
       (version : Nat) (completion : CompletionKind) (value : Val)
       (deps : Option (List (Nat × Nat))) (calcE : Expr),
        getNode s id = some n →
        n.data = .formula valid version completion value deps calcE →
        getNode (formulaInvalidate s id) id =
          some { n with data := .formula none version completion .vnull deps calcE }) := by
  constructor
  · intro s id n valid version completion value deps calcE c1 v1 h1 h2
    constructor
    · intro hsame
      exact modifyNode_id_eq s id _ n h1 (by simp [h2, hsame])
    · intro hdiff
      rw [formulaUpdateValue, getNode_modifyNode_self, h1]
      simp [h2, hdiff]
      intro hv hc
      rw [hv, hc] at hdiff
      simp at hdiff
  · intro s id n valid version completion value deps calcE h1 h2
    rw [formulaInvalidate, getNode_modifyNode_self, h1]
    simp [h2]

theorem version_bump_against_stored_value_witness :
    formulaUpdateValue invalAfterRead 1 .normal (.vint 0) = invalAfterRead ∧
    getNode (formulaInvalidate txState 0) 0 =
      some ⟨.formula none 4 .normal .vnull (some []) (.lit 0), [], []⟩ :=
  ⟨(version_bump_against_stored_value.1 invalAfterRead 1
      ⟨.formula (some 1) 1 .normal (.vint 0) (some [(0, 0)])
        (.seq (.readNode 0) (.lit 0)), [], [7]⟩
      (some 1) 1 .normal (.vint 0) (some [(0, 0)]) (.seq (.readNode 0) (.lit 0))
      .normal (.vint 0) (by decide) rfl).1 (by decide),
   version_bump_against_stored_value.2 txState 0
      ⟨.formula (some 1) 4 .normal (.vint 9) (some []) (.lit 0), [], []⟩
      (some 1) 4 .normal (.vint 9) (some []) (.lit 0) rfl rfl⟩

/-- C5: a formula whose closure threw replays its abrupt completion.  First,
generally: if the formula holds an abrupt completion from an earlier
transaction, the read is outermost, and the dependency walk reports nothing
stale, then `getWithoutListening` re-throws the stored payload; the final
state is the walk's state with only the formula's `_valid` field committed
and the transaction frame torn down — in particular the log is the walk's
log, so this formula's closure did not run.  Second, the version-bump
policy: a recomputation whose abrupt payload is `Object.is`-equal to the
stored abrupt payload leaves the state (hence the version) unchanged, while
any change of completion kind always increments the version.  Third, the
concrete replay: re-reading a thrown formula re-raises the payload with the
closure-run count still 1 and the version unchanged. -/
theorem abrupt_completion_replay :
    (∀ (fuel : Nat) (s sw : EngineState) (id : Nat) (n : Node) (t version : Nat)
       (pv : Val) (deps : List (Nat × Nat)) (calcE : Expr),
        getNode s id = some n →
        n.data = .formula (some t) version .abrupt pv (some deps) calcE →
        s.currentFormulaTransaction = none →
        t ≠ s.nextFormulaTransaction →
        run fuel { s with
            currentFormulaTransaction := some s.nextFormulaTransaction,
            nextFormulaTransaction := s.nextFormulaTransaction + 1 }
          (.checkDependencies deps) = .ok sw (.flag false) →
        getNode sw id = some n →
        getWithoutListening (fuel + 1) s id =
          .thrown { formulaSetValid sw id (some s.nextFormulaTransaction) with
              currentFormulaTransaction := none } pv ∧
        ({ formulaSetValid sw id (some s.nextFormulaTransaction) with
            currentFormulaTransaction := none } : EngineState).log = sw.log) ∧
    (∀ (s : EngineState) (id : Nat) (n : Node) (valid : Option Nat) (version : Nat)
       (pv : Val) (deps : Option (List (Nat × Nat))) (calcE : Expr),
        getNode s id = some n →
        n.data = .formula valid version .abrupt pv deps calcE →
        formulaUpdateValue s id .abrupt pv = s) ∧
    (∀ (s : EngineState) (id : Nat) (n : Node) (valid : Option Nat) (version : Nat)
       (completion : CompletionKind) (value : Val) (deps : Option (List (Nat × Nat)))
       (calcE : Expr) (c1 : CompletionKind) (v1 : Val),
        getNode s id = some n →
        n.data = .formula valid version completion value deps calcE →
        completion ≠ c1 →
        getNode (formulaUpdateValue s id c1 v1) id =
          some { n with data := .formula valid (version + 1) c1 v1 deps calcE }) ∧
    getWithoutListening 20 throwAfterRead 1 =
      .thrown (stateOf (getWithoutListening 20 throwAfterRead 1)) (.vint 5) ∧
    countEvent (stateOf (getWithoutListening 20 throwAfterRead 1)).log (.closureRun 1) = 1 ∧
    formulaVersionOf (stateOf (getWithoutListening 20 throwAfterRead 1)) 1 =
      formulaVersionOf throwAfterRead 1 := by
  refine ⟨?_, ?_, ?_, by decide, by decide, by decide⟩
  · intro fuel s sw id n t version pv deps calcE h1 h2 h3 h4 h5 h6
    have hne : ¬ (some t = some s.nextFormulaTransaction) := by
      simp [h4]
    have h6n : sw.nodes[id]? = some n := h6
    have hget9 : getNode { formulaSetValid sw id (some s.nextFormulaTransaction) with
        currentFormulaTransaction := none } id =
        some { n with data := NodeData.formula (some s.nextFormulaTransaction) version CompletionKind.abrupt pv (some deps) calcE } := by
      simp only [getNode, formulaSetValid, modifyNode]
      rw [listModify_get_self, h6n]
      simp [h2]
    have hver : formulaVersionOf
        { formulaSetValid sw id (some s.nextFormulaTransaction) with
          currentFormulaTransaction := none } id = some version := by
      rw [formulaVersionOf, hget9]
    have hrun : run (fuel + 1) s (.getLatestVersion id) =
        .ok { formulaSetValid sw id (some s.nextFormulaTransaction) with
          currentFormulaTransaction := none } (.ver version) := by
      simp [run, h1, h2, h3, h4, h5, hver]
    constructor
    · simp [getWithoutListening, h1, h2, hrun, hget9]
    · rfl
  · intro s id n valid version pv deps calcE h1 h2
    exact modifyNode_id_eq s id _ n h1 (by simp [h2, objectIs])
  · intro s id n valid version completion value deps calcE c1 v1 h1 h2 hne
    rw [formulaUpdateValue, getNode_modifyNode_self, h1]
    simp [h2]
    intro hv hc
    exact absurd hc hne

theorem abrupt_completion_replay_witness :
    getWithoutListening 20 throwAfterRead 1 =
      .thrown { formulaSetValid { throwAfterRead with
          currentFormulaTransaction := some 2, nextFormulaTransaction := 3 } 1 (some 2) with
        currentFormulaTransaction := none } (.vint 5) :=
  ((abrupt_completion_replay.1 19 throwAfterRead
      { throwAfterRead with currentFormulaTransaction := some 2, nextFormulaTransaction := 3 }
      1 ⟨.formula (some 1) 1 .abrupt (.vint 5) (some [(0, 0)]) (.throwValue (.readNode 0)), [], []⟩
      1 1 (.vint 5) [(0, 0)] (.throwValue (.readNode 0))
      (by decide) rfl (by decide) (by decide) (by decide) (by decide)).1)

/-- C9: subscription laziness.  First, generally: a read of a subscription
with no listeners and no dependents, outside any transaction, invokes the
external `get` exactly once (exactly one `extGet` event is appended) and
leaves the upstream-listener attachment unchanged — in particular an idle
subscription never attaches upstream.  Second: once the subscription is
listened to and its value was validated (`_valid = true`), a read outside a
transaction returns the cached version without invoking `get` (the log is
unchanged).  Third, the concrete end-to-end scenario: two idle reads invoke
`get` twice and never attach; attaching a listener installs the upstream
listener and invalidates; the first listened read invokes `get` once more,
the second returns the cache; the upstream change event invalidates once and
clears the cached value; the next read invokes `get` again. -/
theorem subscription_laziness :
    (∀ (fuel : Nat) (s : EngineState) (id : Nat) (n : Node) (valid : SValid)
       (version : Nat) (completion : CompletionKind) (value : Val)
       (attached : Bool) (ext : Val),
        getNode s id = some n →
        n.data = .subscription valid version completion value attached ext →
        shouldListen n = false →
        s.currentFormulaTransaction = none →
        ∃ (s2 : EngineState) (ver1 : Nat),
          run (fuel + 1) s (.getLatestVersion id) = .ok s2 (.ver ver1) ∧
          s2.log = s.log ++ [.extGet id] ∧
          subAttachedOf s2 id = some attached) ∧
    (∀ (fuel : Nat) (s : EngineState) (id : Nat) (n : Node)
       (version : Nat) (completion : CompletionKind) (value : Val)
       (attached : Bool) (ext : Val),
        getNode s id = some n →
        n.data = .subscription .strue version completion value attached ext →
        shouldListen n = true →
        s.currentFormulaTransaction = none →
        ∃ (s2 : EngineState),
          run (fuel + 1) s (.getLatestVersion id) = .ok s2 (.ver version) ∧
          s2.log = s.log ∧
          subAttachedOf s2 id = some attached) ∧
    countEvent subIdleRead1.log (.extGet 0) = 1 ∧
    countEvent subIdleRead2.log (.extGet 0) = 2 ∧
    subAttachedOf subIdleRead2 0 = some false ∧
    countEvent subListened.log (.extAttach 0) = 1 ∧
    subAttachedOf subListened 0 = some true ∧
    countEvent subListenedRead1.log (.extGet 0) = 3 ∧
    countEvent subListenedRead2.log (.extGet 0) = 3 ∧
    (match getNode subAfterFire 0 with
     | some n =>
        match n.data with
        | .subscription valid _ _ v _ _ => some (valid, v)
        | _ => none
     | none => none) = some (.sfalse, .vnull) ∧
    countEvent subAfterFire.log (.listenerFired 0 4) = 1 ∧
    countEvent subAfterFireRead.log (.extGet 0) = 4 := by
  refine ⟨?_, ?_, by decide, by decide, by decide, by decide, by decide, by decide,
    by decide, by decide, by decide, by decide⟩
  · intro fuel s id n valid version completion value attached ext h1 h2 hL h3
    have h1n : s.nodes[id]? = some n := h1
    refine ⟨subSetValid { subUpdateValue (logEvent { s with
        currentFormulaDependencies := none } (.extGet id)) id .normal ext with
        currentFormulaDependencies := s.currentFormulaDependencies } id .strue,
      if (objectIs value ext && decide (completion = CompletionKind.normal)) = true
        then version else version + 1, ?_, rfl, ?_⟩
    · by_cases hsame : objectIs value ext = true ∧ completion = CompletionKind.normal
      · simp [run, h1, h2, hL, h3, subVersionOf, subSetValid, subUpdateValue, logEvent,
          modifyNode, getNode, listModify_get_self, h1n, hsame.1, hsame.2]
      · simp [run, h1, h2, hL, h3, subVersionOf, subSetValid, subUpdateValue, logEvent,
          modifyNode, getNode, listModify_get_self, h1n, hsame]
    · have hA : getNode { subUpdateValue (logEvent { s with
          currentFormulaDependencies := none } (.extGet id)) id .normal ext with
          currentFormulaDependencies := s.currentFormulaDependencies } id =
          some (if (objectIs value ext && decide (completion = CompletionKind.normal)) = true
            then n
            else { n with data := NodeData.subscription valid (version + 1) CompletionKind.normal ext attached ext }) := by
        simp only [subUpdateValue, logEvent, modifyNode, getNode]
        rw [listModify_get_self, h1n]
        by_cases hsame : (objectIs value ext && decide (completion = CompletionKind.normal)) = true
        · simp [h2, hsame]
          intro himp
          rw [Bool.and_eq_true] at hsame
          exact absurd (of_decide_eq_true hsame.2) (himp hsame.1)
        · simp [h2, hsame]
          intro hv hc
          exact absurd (by simp [hv, hc]) hsame
      rw [subAttachedOf, subSetValid, getNode_modifyNode_self, hA]
      by_cases hsame : (objectIs value ext && decide (completion = CompletionKind.normal)) = true
      · simp [hsame, h2]
      · simp [hsame, h2]
  · intro fuel s id n version completion value attached ext h1 h2 hL h3
    have h1n : s.nodes[id]? = some n := h1
    refine ⟨subSetValid s id .strue, ?_, rfl, ?_⟩
    · simp [run, h1, h2, hL, h3, subVersionOf, subSetValid, modifyNode, getNode,
        listModify_get_self, h1n]
    · simp only [subAttachedOf, subSetValid, modifyNode, getNode]
      rw [listModify_get_self, h1n]
      simp [h2]

theorem subscription_laziness_witness :
    ∃ (s2 : EngineState) (ver1 : Nat),
      run 20 subInit (.getLatestVersion 0) = .ok s2 (.ver ver1) ∧
      s2.log = subInit.log ++ [.extGet 0] ∧
      subAttachedOf s2 0 = some false :=
  subscription_laziness.1 19 subInit 0
    ⟨.subscription .sfalse 0 .normal .vnull false (.vint 5), [], []⟩
    .sfalse 0 .normal .vnull false (.vint 5) (by decide) rfl (by decide) (by decide)

/-! Preservation toolkit for the registration invariant. -/

theorem kindsOfL_listModify (l : List Node) (i : Nat) (f : Node → Node)
    (hkind : ∀ m, nodeKind (f m) = nodeKind m) :
    kindsOfL (listModify l i f) = kindsOfL l := by
  induction l generalizing i with
  | nil => simp [listModify]
  | cons n rest ih =>
    cases i with
    | zero => simp [listModify, kindsOfL, hkind]
    | succ j => simpa [listModify, kindsOfL] using ih j

theorem mem_listModify (l : List Node) (i : Nat) (f : Node → Node) (x : Node)
    (hx : x ∈ listModify l i f) : x ∈ l ∨ ∃ m, m ∈ l ∧ x = f m := by
  induction l generalizing i with
  | nil => simp [listModify] at hx
  | cons n rest ih =>
    cases i with
    | zero =>
      rcases List.mem_cons.mp hx with h | h
      · exact Or.inr ⟨n, List.mem_cons_self _ _, h⟩
      · exact Or.inl (List.mem_cons_of_mem _ h)
    | succ j =>
      rcases List.mem_cons.mp hx with h | h
      · exact Or.inl (h ▸ List.mem_cons_self _ _)
      · rcases ih j h with h1 | ⟨m, hm, hfm⟩
        · exact Or.inl (List.mem_cons_of_mem _ h1)
        · exact Or.inr ⟨m, List.mem_cons_of_mem _ hm, hfm⟩

theorem depsOkL_listModify (l : List Node) (i : Nat) (f : Node → Node) (extra : Nat)
    (hkind : ∀ m, nodeKind (f m) = nodeKind m)
    (hdep : ∀ m, ∀ d ∈ (f m).dependents, d ∈ m.dependents ∨ d = extra)
    (hextra : (kindsOfL l)[extra]? = some NKind.formulaK)
    (h : depsOkL l) : depsOkL (listModify l i f) := by
  intro n hn d hd
  rw [kindsOfL_listModify l i f hkind]
  rcases mem_listModify l i f n hn with hmem | ⟨m, hm, rfl⟩
  · exact h n hmem d hd
  · rcases hdep m d hd with h1 | rfl
    · exact h m hm d h1
    · exact hextra

theorem depsOkL_listModify_frame (l : List Node) (i : Nat) (f : Node → Node)
    (hkind : ∀ m, nodeKind (f m) = nodeKind m)
    (hdep : ∀ m, ∀ d ∈ (f m).dependents, d ∈ m.dependents)
    (h : depsOkL l) : depsOkL (listModify l i f) := by
  intro n hn d hd
  rw [kindsOfL_listModify l i f hkind]
  rcases mem_listModify l i f n hn with hmem | ⟨m, hm, rfl⟩
  · exact h n hmem d hd
  · exact h m hm d (hdep m d hd)

theorem StateOk_refl (s : EngineState) (h : depsOkL s.nodes) : StateOk s s :=
  ⟨h, rfl, rfl⟩

theorem StateOk_trans (s s1 s2 : EngineState) (h1 : StateOk s s1)
    (h2 : StateOk s1 s2) : StateOk s s2 :=
  ⟨h2.1, h2.2.1.trans h1.2.1, h2.2.2.trans h1.2.2⟩

theorem ResOk_trans (s s1 : EngineState) (r : Res) (h1 : StateOk s s1)
    (h2 : ResOk s1 r) : ResOk s r := by
  cases r with
  | ok s2 v => exact StateOk_trans s s1 s2 h1 h2
  | thrown s2 v => exact StateOk_trans s s1 s2 h1 h2
  | out => trivial

theorem StateOk_of_nodes (s s' : EngineState) (h : depsOkL s.nodes)
    (hn : s'.nodes = s.nodes) (hp : s'.pending = s.pending) : StateOk s s' := by
  refine ⟨?_, by rw [hn], hp⟩
  rw [hn]
  exact h

theorem StateOk_modify_frame (s : EngineState) (id : Nat) (f : Node → Node)
    (hkind : ∀ m, nodeKind (f m) = nodeKind m)
    (hdep : ∀ m, ∀ d ∈ (f m).dependents, d ∈ m.dependents)
    (h : depsOkL s.nodes) : StateOk s (modifyNode s id f) :=
  ⟨depsOkL_listModify_frame s.nodes id f hkind hdep h,
   kindsOfL_listModify s.nodes id f hkind, rfl⟩

theorem StateOk_modify_extra (s : EngineState) (id : Nat) (f : Node → Node) (extra : Nat)
    (hkind : ∀ m, nodeKind (f m) = nodeKind m)
    (hdep : ∀ m, ∀ d ∈ (f m).dependents, d ∈ m.dependents ∨ d = extra)
    (hextra : (kindsOfL s.nodes)[extra]? = some NKind.formulaK)
    (h : depsOkL s.nodes) : StateOk s (modifyNode s id f) :=
  ⟨depsOkL_listModify s.nodes id f extra hkind hdep hextra h,
   kindsOfL_listModify s.nodes id f hkind, rfl⟩

theorem mem_setAdd (l : List Nat) (x d : Nat) (h : d ∈ setAdd l x) : d ∈ l ∨ d = x := by
  rw [setAdd] at h
  split at h
  · exact Or.inl h
  · rcases List.mem_append.mp h with h1 | h1
    · exact Or.inl h1
    · exact Or.inr (List.mem_singleton.mp h1)

theorem mem_setDelete (l : List Nat) (x d : Nat) (h : d ∈ setDelete l x) : d ∈ l :=
  List.mem_of_mem_filter h

theorem StateOk_formulaUpdateValue (s : EngineState) (id : Nat)
    (c : CompletionKind) (v : Val) (h : depsOkL s.nodes) :
    StateOk s (formulaUpdateValue s id c v) := by
  refine StateOk_modify_frame s id _ ?_ ?_ h
  · intro m
    cases hm : m.data with
    | formula valid version completion value dependencies calculate =>
      simp only [hm]
      split
      · rfl
      · simp [nodeKind, hm]
    | cell version value => simp [nodeKind, hm]
    | liveValue version value => simp [nodeKind, hm]
    | subscription valid version completion value attached extValue => simp [nodeKind, hm]
  · intro m d hd
    revert hd
    cases hm : m.data with
    | formula valid version completion value dependencies calculate =>
      simp only [hm]
      split
      · exact fun hd => hd
      · exact fun hd => hd
    | cell version value => simp [hm]
    | liveValue version value => simp [hm]
    | subscription valid version completion value attached extValue => simp [hm]

theorem StateOk_formulaSetDependencies (s : EngineState) (id : Nat)
    (dp : Option (List (Nat × Nat))) (h : depsOkL s.nodes) :
    StateOk s (formulaSetDependencies s id dp) := by
  refine StateOk_modify_frame s id _ ?_ ?_ h
  · intro m
    cases hm : m.data <;> simp [nodeKind, hm]
  · intro m d hd
    revert hd
    cases hm : m.data <;> simp [hm]

theorem StateOk_formulaSetValid (s : EngineState) (id : Nat)
    (v : Option Nat) (h : depsOkL s.nodes) : StateOk s (formulaSetValid s id v) := by
  refine StateOk_modify_frame s id _ ?_ ?_ h
  · intro m
    cases hm : m.data <;> simp [nodeKind, hm]
  · intro m d hd
    revert hd
    cases hm : m.data <;> simp [hm]

theorem StateOk_formulaInvalidate (s : EngineState) (id : Nat)
    (h : depsOkL s.nodes) : StateOk s (formulaInvalidate s id) := by
  refine StateOk_modify_frame s id _ ?_ ?_ h
  · intro m
    cases hm : m.data <;> simp [nodeKind, hm]
  · intro m d hd
    revert hd
    cases hm : m.data <;> simp [hm]

theorem StateOk_subUpdateValue (s : EngineState) (id : Nat)
    (c : CompletionKind) (v : Val) (h : depsOkL s.nodes) :
    StateOk s (subUpdateValue s id c v) := by
  refine StateOk_modify_frame s id _ ?_ ?_ h
  · intro m
    cases hm : m.data with
    | subscription valid version completion value attached extValue =>
      simp only [hm]
      split
      · rfl
      · simp [nodeKind, hm]
    | cell version value => simp [nodeKind, hm]
    | liveValue version value => simp [nodeKind, hm]
    | formula valid version completion value dependencies calculate => simp [nodeKind, hm]
  · intro m d hd
    revert hd
    cases hm : m.data with
    | subscription valid version completion value attached extValue =>
      simp only [hm]
      split
      · exact fun hd => hd
      · exact fun hd => hd
    | cell version value => simp [hm]
    | liveValue version value => simp [hm]
    | formula valid version completion value dependencies calculate => simp [hm]

theorem StateOk_subSetValid (s : EngineState) (id : Nat) (v : SValid)
    (h : depsOkL s.nodes) : StateOk s (subSetValid s id v) := by
  refine StateOk_modify_frame s id _ ?_ ?_ h
  · intro m
    cases hm : m.data <;> simp [nodeKind, hm]
  · intro m d hd
    revert hd
    cases hm : m.data <;> simp [hm]

theorem StateOk_subInvalidate (s : EngineState) (id : Nat)
    (h : depsOkL s.nodes) : StateOk s (subInvalidate s id) := by
  refine StateOk_modify_frame s id _ ?_ ?_ h
  · intro m
    cases hm : m.data <;> simp [nodeKind, hm]
  · intro m d hd
    revert hd
    cases hm : m.data <;> simp [hm]

theorem StateOk_subSetAttached (s : EngineState) (id : Nat) (b : Bool)
    (h : depsOkL s.nodes) : StateOk s (modifyNode s id (subSetAttached b)) := by
  refine StateOk_modify_frame s id _ ?_ ?_ h
  · intro m
    rw [subSetAttached]
    cases hm : m.data <;> simp [nodeKind, hm]
  · intro m d hd
    revert hd
    rw [subSetAttached]
    cases hm : m.data <;> simp [hm]

theorem StateOk_addListenerBase (s : EngineState) (id : Nat) (l : Nat)
    (h : depsOkL s.nodes) : StateOk s (modifyNode s id (addListenerBase l)) := by
  refine StateOk_modify_frame s id _ ?_ ?_ h
  · intro m
    simp [addListenerBase, nodeKind]
  · intro m d hd
    simpa [addListenerBase] using hd

theorem StateOk_removeListenerBase (s : EngineState) (id : Nat) (l : Nat)
    (h : depsOkL s.nodes) : StateOk s (modifyNode s id (removeListenerBase l)) := by
  refine StateOk_modify_frame s id _ ?_ ?_ h
  · intro m
    simp [removeListenerBase, nodeKind]
  · intro m d hd
    simpa [removeListenerBase] using hd

theorem StateOk_addDependentBase (s : EngineState) (id dep : Nat)
    (hdep : (kindsOfL s.nodes)[dep]? = some NKind.formulaK)
    (h : depsOkL s.nodes) : StateOk s (modifyNode s id (addDependentBase dep)) := by
  refine StateOk_modify_extra s id _ dep ?_ ?_ hdep h
  · intro m
    simp [addDependentBase, nodeKind]
  · intro m d hd
    exact mem_setAdd _ _ _ (by simpa [addDependentBase] using hd)

theorem StateOk_removeDependentBase (s : EngineState) (id dep : Nat)
    (h : depsOkL s.nodes) : StateOk s (modifyNode s id (removeDependentBase dep)) := by
  refine StateOk_modify_frame s id _ ?_ ?_ h
  · intro m
    simp [removeDependentBase, nodeKind]
  · intro m d hd
    exact mem_setDelete _ _ _ (by simpa [removeDependentBase] using hd)

theorem StateOk_logEvent (s : EngineState) (e : Event) (h : depsOkL s.nodes) :
    StateOk s (logEvent s e) :=
  StateOk_of_nodes s _ h rfl rfl

theorem StateOk_updateSubscriptionListener (s : EngineState) (id : Nat) (w : Bool)
    (h : depsOkL s.nodes) : StateOk s (updateSubscriptionListener s id w) := by
  rw [updateSubscriptionListener]
  cases hg : getNode s id with
  | none => exact StateOk_refl s h
  | some n =>
    dsimp only
    cases hd : n.data with
    | cell version value => exact StateOk_refl s h
    | liveValue version value => exact StateOk_refl s h
    | formula valid version completion value dependencies calculate => exact StateOk_refl s h
    | subscription valid version completion value attached extValue =>
      dsimp only
      split
      · split
        · have h1 := StateOk_subSetAttached s id true h
          exact StateOk_trans s _ _ h1 (StateOk_logEvent _ _ h1.1)
        · have h0 := StateOk_subInvalidate s id h
          have h1 := StateOk_subSetAttached _ id true h0.1
          have h2 := StateOk_logEvent _ (Event.extAttach id) h1.1
          exact StateOk_trans s _ _ h0 (StateOk_trans _ _ _ h1 h2)
      · split
        · have h1 := StateOk_subSetAttached s id false h
          exact StateOk_trans s _ _ h1 (StateOk_logEvent _ _ h1.1)
        · exact StateOk_refl s h

theorem ResOk_ok (s s2 : EngineState) (r : Res) (v : RVal) (h : ResOk s r)
    (he : r = .ok s2 v) : StateOk s s2 := by
  rw [he] at h
  exact h

theorem ResOk_thrown (s s2 : EngineState) (r : Res) (v : Val) (h : ResOk s r)
    (he : r = .thrown s2 v) : StateOk s s2 := by
  rw [he] at h
  exact h

theorem ReqPre_transfer (s s' : EngineState) (req : Req)
    (hk : kindsOfL s'.nodes = kindsOfL s.nodes) (h : ReqPre s req) : ReqPre s' req := by
  cases req <;> simp only [ReqPre] at h ⊢ <;> (try rw [hk]) <;> exact h

theorem StateOk_mkError (s : EngineState) (c : ErrCode) (h : depsOkL s.nodes) :
    StateOk s (mkError s c).1 :=
  StateOk_of_nodes s _ h rfl rfl


theorem kinds_of_getNode (s : EngineState) (t : Nat) (n : Node)
    (h : getNode s t = some n) : (kindsOfL s.nodes)[t]? = some (nodeKind n) := by
  rw [kindsOfL, List.getElem?_map]
  rw [getNode] at h
  rw [h]
  rfl

theorem run_ResOk : ∀ (fuel : Nat) (s : EngineState) (req : Req),
    depsOkL s.nodes → ReqPre s req → ResOk s (run fuel s req) := by
  intro fuel
  induction fuel with
  | zero =>
    intro s req hdeps hpre
    simp only [run]
    trivial
  | succ fuel ih =>
    intro s req hdeps hpre
    cases req with
    | evalExpr e =>
      cases e with
      | lit n =>
        simp only [run]
        exact StateOk_refl s hdeps
      | readNode id =>
        simp only [run]
        exact ih s (.calcM id) hdeps trivial
      | add a b =>
        simp only [run]
        split
        · rename_i s1 na heq
          have hs1 := ResOk_ok s s1 _ _ (ih s (.evalExpr a) hdeps trivial) heq
          split
          · rename_i s2 nb heq2
            exact StateOk_trans s s1 s2 hs1
              (ResOk_ok s1 s2 _ _ (ih s1 (.evalExpr b) hs1.1 trivial) heq2)
          · rename_i s2 v heq2
            exact StateOk_trans s s1 s2 hs1
              (ResOk_thrown s1 s2 _ _ (ih s1 (.evalExpr b) hs1.1 trivial) heq2)
          · trivial
        · rename_i s1 v heq
          exact ResOk_thrown s s1 _ _ (ih s (.evalExpr a) hdeps trivial) heq
        · trivial
      | seq a b =>
        simp only [run]
        split
        · rename_i s1 v heq
          have hs1 := ResOk_ok s s1 _ _ (ih s (.evalExpr a) hdeps trivial) heq
          exact ResOk_trans s s1 _ hs1 (ih s1 (.evalExpr b) hs1.1 trivial)
        · rename_i s1 v heq
          exact ResOk_thrown s s1 _ _ (ih s (.evalExpr a) hdeps trivial) heq
        · trivial
      | throwValue a =>
        simp only [run]
        split
        · rename_i s1 v heq
          exact ResOk_ok s s1 _ _ (ih s (.evalExpr a) hdeps trivial) heq
        · rename_i s1 v heq
          exact ResOk_thrown s s1 _ _ (ih s (.evalExpr a) hdeps trivial) heq
        · trivial
    | calcM id =>
      simp only [run, mkError]
      split
      · exact StateOk_of_nodes s _ hdeps rfl rfl
      · rename_i frame hframe
        split
        · trivial
        · rename_i n hn
          split
          · exact StateOk_of_nodes s _ hdeps rfl rfl
          · exact StateOk_of_nodes s _ hdeps rfl rfl
          · -- formula: recursive validation then the frame update and re-read
            split
            · rename_i s1 version heq
              have hs1 := ResOk_ok s s1 _ _ (ih s (.getLatestVersion id) hdeps trivial) heq
              split
              · exact StateOk_trans s s1 _ hs1 (StateOk_of_nodes s1 _ hs1.1 rfl rfl)
              · rename_i frame1 hframe1
                split
                · rename_i n1 hn1
                  split
                  · split
                    · exact StateOk_trans s s1 _ hs1 (StateOk_of_nodes s1 _ hs1.1 rfl rfl)
                    · exact StateOk_trans s s1 _ hs1 (StateOk_of_nodes s1 _ hs1.1 rfl rfl)
                  · trivial
                · trivial
            · rename_i s1 v heq
              exact ResOk_thrown s s1 _ _ (ih s (.getLatestVersion id) hdeps trivial) heq
            · trivial
          · -- subscription: same shape
            split
            · rename_i s1 version heq
              have hs1 := ResOk_ok s s1 _ _ (ih s (.getLatestVersion id) hdeps trivial) heq
              split
              · exact StateOk_trans s s1 _ hs1 (StateOk_of_nodes s1 _ hs1.1 rfl rfl)
              · rename_i frame1 hframe1
                split
                · rename_i n1 hn1
                  split
                  · split
                    · exact StateOk_trans s s1 _ hs1 (StateOk_of_nodes s1 _ hs1.1 rfl rfl)
                    · exact StateOk_trans s s1 _ hs1 (StateOk_of_nodes s1 _ hs1.1 rfl rfl)
                  · trivial
                · trivial
            · rename_i s1 v heq
              exact ResOk_thrown s s1 _ _ (ih s (.getLatestVersion id) hdeps trivial) heq
            · trivial
    | getLatestVersion id =>
      simp only [run, mkError]
      split
      · trivial
      · rename_i n hn
        split
        · exact StateOk_refl s hdeps
        · exact StateOk_refl s hdeps
        · -- formula branch
          rename_i valid version completion value dependencies calculate hdata
          cases htx0 : s.currentFormulaTransaction with
          | some t =>
            dsimp only
            split
            · exact StateOk_of_nodes s _ hdeps rfl rfl
            · split
              · rename_i s1 v1 heq
                by_cases hv : valid = none
                · rw [if_pos hv] at heq
                  cases heq
                · rw [if_neg hv] at heq
                  cases hdep0 : dependencies with
                  | none =>
                    rw [hdep0] at heq
                    cases heq
                    exact StateOk_of_nodes s _ hdeps rfl rfl
                  | some entries =>
                    rw [hdep0] at heq
                    exact ResOk_thrown _ s1 _ _
                      (ResOk_trans s _ _ (StateOk_of_nodes s s hdeps rfl rfl)
                        (ih s (.checkDependencies entries) hdeps trivial)) heq
              · rename_i s1 recalculate heq
                have hs1 : StateOk s s1 := by
                  by_cases hv : valid = none
                  · rw [if_pos hv] at heq
                    cases heq
                    exact StateOk_of_nodes s _ hdeps rfl rfl
                  · rw [if_neg hv] at heq
                    cases hdep0 : dependencies with
                    | none =>
                      rw [hdep0] at heq
                      simp at heq
                    | some entries =>
                      rw [hdep0] at heq
                      exact ResOk_ok _ s1 _ _
                        (ResOk_trans s _ _ (StateOk_of_nodes s s hdeps rfl rfl)
                          (ih s (.checkDependencies entries) hdeps trivial)) heq
                split
                · split
                  · trivial
                  · rename_i s3 c1 v1 heval
                    have hs3 : StateOk s s3 := by
                      have hs2 : StateOk s (logEvent { s1 with
                          currentFormulaDependencies := some [] } (.closureRun id)) :=
                        StateOk_trans s s1 _ hs1 (StateOk_of_nodes s1 _ hs1.1 rfl rfl)
                      have hres := ResOk_trans s _ _ hs2
                        (ih _ (.evalExpr calculate) hs2.1 trivial)
                      cases hev : run fuel (logEvent { s1 with
                          currentFormulaDependencies := some [] } (.closureRun id))
                          (.evalExpr calculate) with
                      | ok se ve =>
                        rw [hev] at heval
                        cases ve with
                        | val vv =>
                          simp at heval
                          rw [hev] at hres
                          rw [← heval.1]
                          exact hres
                        | unit => simp at heval
                        | ver x => simp at heval
                        | flag x => simp at heval
                      | thrown se ve =>
                        rw [hev] at heval
                        simp at heval
                        rw [hev] at hres
                        rw [← heval.1]
                        exact hres
                      | out =>
                        rw [hev] at heval
                        simp at heval
                    have hs6 : StateOk s (formulaSetDependencies
                        { formulaUpdateValue s3 id c1 v1 with
                          currentFormulaDependencies := s1.currentFormulaDependencies } id
                        (formulaUpdateValue s3 id c1 v1).currentFormulaDependencies) := by
                      have h4 := StateOk_trans s s3 _ hs3
                        (StateOk_formulaUpdateValue s3 id c1 v1 hs3.1)
                      have h5 : StateOk s { formulaUpdateValue s3 id c1 v1 with
                          currentFormulaDependencies := s1.currentFormulaDependencies } :=
                        StateOk_trans s _ _ h4 (StateOk_of_nodes _ _ h4.1 rfl rfl)
                      exact StateOk_trans s _ _ h5
                        (StateOk_formulaSetDependencies _ id _ h5.1)
                    have hpre6 : (kindsOfL (formulaSetDependencies
                        { formulaUpdateValue s3 id c1 v1 with
                          currentFormulaDependencies := s1.currentFormulaDependencies } id
                        (formulaUpdateValue s3 id c1 v1).currentFormulaDependencies).nodes)[id]? =
                        some NKind.formulaK := by
                      rw [hs6.2.1, kinds_of_getNode s id n hn, nodeKind, hdata]
                    split
                    · rename_i s7 v7 hdiff
                      have hs7 : StateOk s s7 := by
                        revert hdiff
                        split
                        · split
                          · intro hdiff
                            cases hdiff
                            exact hs6
                          · split
                            · intro hdiff
                              exact ResOk_ok _ s7 _ _ (ResOk_trans s _ _ hs6
                                (ih _ (.registerAll id _) hs6.1 hpre6)) hdiff
                            · intro hdiff
                              exact ResOk_ok _ s7 _ _ (ResOk_trans s _ _ hs6
                                (ih _ (.registerDiff id _ _) hs6.1 hpre6)) hdiff
                        · intro hdiff
                          cases hdiff
                          exact hs6
                      split
                      · exact StateOk_trans s s7 _ hs7
                          (StateOk_trans s7 _ _
                            (StateOk_formulaSetValid s7 id _ hs7.1)
                            (StateOk_of_nodes _ _ (StateOk_formulaSetValid s7 id _ hs7.1).1 rfl rfl))
                      · trivial
                    · rename_i s7 v7 hdiff
                      have hs7 : StateOk s s7 := by
                        revert hdiff
                        split
                        · split
                          · intro hdiff
                            cases hdiff
                          · split
                            · intro hdiff
                              exact ResOk_thrown _ s7 _ _ (ResOk_trans s _ _ hs6
                                (ih _ (.registerAll id _) hs6.1 hpre6)) hdiff
                            · intro hdiff
                              exact ResOk_thrown _ s7 _ _ (ResOk_trans s _ _ hs6
                                (ih _ (.registerDiff id _ _) hs6.1 hpre6)) hdiff
                        · intro hdiff
                          cases hdiff
                      exact hs7
                    · trivial
                · split
                  · exact StateOk_trans s s1 _ hs1
                      (StateOk_trans s1 _ _
                        (StateOk_formulaSetValid s1 id _ hs1.1)
                        (StateOk_of_nodes _ _ (StateOk_formulaSetValid s1 id _ hs1.1).1 rfl rfl))
                  · trivial
              · trivial
          | none =>
            dsimp only
            split
            · exact StateOk_of_nodes s _ hdeps rfl rfl
            · split
              · rename_i s1 v1 heq
                by_cases hv : valid = none
                · rw [if_pos hv] at heq
                  cases heq
                · rw [if_neg hv] at heq
                  cases hdep0 : dependencies with
                  | none =>
                    rw [hdep0] at heq
                    cases heq
                    exact StateOk_of_nodes s _ hdeps rfl rfl
                  | some entries =>
                    rw [hdep0] at heq
                    exact ResOk_thrown _ s1 _ _
                      (ResOk_trans s _ _ (StateOk_of_nodes s { s with currentFormulaTransaction := some s.nextFormulaTransaction, nextFormulaTransaction := s.nextFormulaTransaction + 1 } hdeps rfl rfl)
                        (ih { s with currentFormulaTransaction := some s.nextFormulaTransaction, nextFormulaTransaction := s.nextFormulaTransaction + 1 } (.checkDependencies entries) hdeps trivial)) heq
              · rename_i s1 recalculate heq
                have hs1 : StateOk s s1 := by
                  by_cases hv : valid = none
                  · rw [if_pos hv] at heq
                    cases heq
                    exact StateOk_of_nodes s _ hdeps rfl rfl
                  · rw [if_neg hv] at heq
                    cases hdep0 : dependencies with
                    | none =>
                      rw [hdep0] at heq
                      simp at heq
                    | some entries =>
                      rw [hdep0] at heq
                      exact ResOk_ok _ s1 _ _
                        (ResOk_trans s _ _ (StateOk_of_nodes s { s with currentFormulaTransaction := some s.nextFormulaTransaction, nextFormulaTransaction := s.nextFormulaTransaction + 1 } hdeps rfl rfl)
                          (ih { s with currentFormulaTransaction := some s.nextFormulaTransaction, nextFormulaTransaction := s.nextFormulaTransaction + 1 } (.checkDependencies entries) hdeps trivial)) heq
                split
                · split
                  · trivial
                  · rename_i s3 c1 v1 heval
                    have hs3 : StateOk s s3 := by
                      have hs2 : StateOk s (logEvent { s1 with
                          currentFormulaDependencies := some [] } (.closureRun id)) :=
                        StateOk_trans s s1 _ hs1 (StateOk_of_nodes s1 _ hs1.1 rfl rfl)
                      have hres := ResOk_trans s _ _ hs2
                        (ih _ (.evalExpr calculate) hs2.1 trivial)
                      cases hev : run fuel (logEvent { s1 with
                          currentFormulaDependencies := some [] } (.closureRun id))
                          (.evalExpr calculate) with
                      | ok se ve =>
                        rw [hev] at heval
                        cases ve with
                        | val vv =>
                          simp at heval
                          rw [hev] at hres
                          rw [← heval.1]
                          exact hres
                        | unit => simp at heval
                        | ver x => simp at heval
                        | flag x => simp at heval
                      | thrown se ve =>
                        rw [hev] at heval
                        simp at heval
                        rw [hev] at hres
                        rw [← heval.1]
                        exact hres
                      | out =>
                        rw [hev] at heval
                        simp at heval
                    have hs6 : StateOk s (formulaSetDependencies
                        { formulaUpdateValue s3 id c1 v1 with
                          currentFormulaDependencies := s1.currentFormulaDependencies } id
                        (formulaUpdateValue s3 id c1 v1).currentFormulaDependencies) := by
                      have h4 := StateOk_trans s s3 _ hs3
                        (StateOk_formulaUpdateValue s3 id c1 v1 hs3.1)
                      have h5 : StateOk s { formulaUpdateValue s3 id c1 v1 with
                          currentFormulaDependencies := s1.currentFormulaDependencies } :=
                        StateOk_trans s _ _ h4 (StateOk_of_nodes _ _ h4.1 rfl rfl)
                      exact StateOk_trans s _ _ h5
                        (StateOk_formulaSetDependencies _ id _ h5.1)
                    have hpre6 : (kindsOfL (formulaSetDependencies
                        { formulaUpdateValue s3 id c1 v1 with
                          currentFormulaDependencies := s1.currentFormulaDependencies } id
                        (formulaUpdateValue s3 id c1 v1).currentFormulaDependencies).nodes)[id]? =
                        some NKind.formulaK := by
                      rw [hs6.2.1, kinds_of_getNode s id n hn, nodeKind, hdata]
                    split
                    · rename_i s7 v7 hdiff
                      have hs7 : StateOk s s7 := by
                        revert hdiff
                        split
                        · split
                          · intro hdiff
                            cases hdiff
                            exact hs6
                          · split
                            · intro hdiff
                              exact ResOk_ok _ s7 _ _ (ResOk_trans s _ _ hs6
                                (ih _ (.registerAll id _) hs6.1 hpre6)) hdiff
                            · intro hdiff
                              exact ResOk_ok _ s7 _ _ (ResOk_trans s _ _ hs6
                                (ih _ (.registerDiff id _ _) hs6.1 hpre6)) hdiff
                        · intro hdiff
                          cases hdiff
                          exact hs6
                      split
                      · exact StateOk_trans s s7 _ hs7
                          (StateOk_trans s7 _ _
                            (StateOk_formulaSetValid s7 id _ hs7.1)
                            (StateOk_of_nodes _ _ (StateOk_formulaSetValid s7 id _ hs7.1).1 rfl rfl))
                      · trivial
                    · rename_i s7 v7 hdiff
                      have hs7 : StateOk s s7 := by
                        revert hdiff
                        split
                        · split
                          · intro hdiff
                            cases hdiff
                          · split
                            · intro hdiff
                              exact ResOk_thrown _ s7 _ _ (ResOk_trans s _ _ hs6
                                (ih _ (.registerAll id _) hs6.1 hpre6)) hdiff
                            · intro hdiff
                              exact ResOk_thrown _ s7 _ _ (ResOk_trans s _ _ hs6
                                (ih _ (.registerDiff id _ _) hs6.1 hpre6)) hdiff
                        · intro hdiff
                          cases hdiff
                      exact hs7
                    · trivial
                · split
                  · exact StateOk_trans s s1 _ hs1
                      (StateOk_trans s1 _ _
                        (StateOk_formulaSetValid s1 id _ hs1.1)
                        (StateOk_of_nodes _ _ (StateOk_formulaSetValid s1 id _ hs1.1).1 rfl rfl))
                  · trivial
              · trivial
        · -- subscription branch
          rename_i valid version completion value attached extValue hdata
          split
          · exact StateOk_refl s hdeps
          · split
            · split
              · have hA : StateOk s (logEvent { s with
                    currentFormulaDependencies := none } (.extGet id)) :=
                  StateOk_of_nodes s _ hdeps rfl rfl
                have hB := StateOk_trans s _ _ hA
                  (StateOk_subUpdateValue _ id .normal extValue hA.1)
                have hC := StateOk_trans s _ _ hB (StateOk_of_nodes _ _ hB.1 rfl rfl)
                exact StateOk_trans s _ _ hC (StateOk_subSetValid _ id _ hC.1)
              · exact StateOk_subSetValid s id _ hdeps
            · trivial
    | checkDependencies entries =>
      simp only [run]
      split
      · exact StateOk_refl s hdeps
      · rename_i d observed rest
        split
        · rename_i s1 v heq
          have hs1 := ResOk_ok s s1 _ _ (ih s (.getLatestVersion d) hdeps trivial) heq
          split
          · exact hs1
          · exact ResOk_trans s s1 _ hs1 (ih s1 (.checkDependencies rest) hs1.1 trivial)
        · rename_i s1 v heq
          exact ResOk_thrown s s1 _ _ (ih s (.getLatestVersion d) hdeps trivial) heq
        · trivial
    | registerAll self entries =>
      simp only [run]
      split
      · exact StateOk_refl s hdeps
      · rename_i d unused rest
        split
        · rename_i s1 v heq
          have hs1 := ResOk_ok s s1 _ _
            (ih s (.addDependent d self) hdeps hpre) heq
          exact ResOk_trans s s1 _ hs1
            (ih s1 (.registerAll self rest) hs1.1 (ReqPre_transfer s s1 _ hs1.2.1 hpre))
        · rename_i s1 v heq
          exact ResOk_thrown s s1 _ _ (ih s (.addDependent d self) hdeps hpre) heq
        · trivial
    | unregisterAll self entries =>
      simp only [run]
      split
      · exact StateOk_refl s hdeps
      · rename_i d unused rest
        split
        · rename_i s1 v heq
          have hs1 := ResOk_ok s s1 _ _
            (ih s (.removeDependent d self) hdeps hpre) heq
          exact ResOk_trans s s1 _ hs1
            (ih s1 (.unregisterAll self rest) hs1.1 (ReqPre_transfer s s1 _ hs1.2.1 hpre))
        · rename_i s1 v heq
          exact ResOk_thrown s s1 _ _ (ih s (.removeDependent d self) hdeps hpre) heq
        · trivial
    | registerDiff self entries old =>
      simp only [run]
      split
      · exact ih s (.unregisterAll self old) hdeps hpre
      · rename_i d unused rest
        split
        · exact ih s (.registerDiff self rest (mapDelete old d)) hdeps hpre
        · split
          · rename_i s1 v heq
            have hs1 := ResOk_ok s s1 _ _
              (ih s (.addDependent d self) hdeps hpre) heq
            exact ResOk_trans s s1 _ hs1
              (ih s1 (.registerDiff self rest old) hs1.1 (ReqPre_transfer s s1 _ hs1.2.1 hpre))
          · rename_i s1 v heq
            exact ResOk_thrown s s1 _ _ (ih s (.addDependent d self) hdeps hpre) heq
          · trivial
    | addDependent target dep =>
      simp only [run]
      split
      · trivial
      · rename_i n hn
        split
        · exact StateOk_addDependentBase s target dep hpre hdeps
        · exact StateOk_addDependentBase s target dep hpre hdeps
        · rename_i valid version completion value dependencies calculate hdata
          have hs1 := StateOk_addDependentBase s target dep hpre hdeps
          have hpre1 : ReqPre (modifyNode s target (addDependentBase dep))
              (.updateDependencyListeners target (shouldListen n)) := by
            show (kindsOfL _)[target]? = some NKind.formulaK
            rw [hs1.2.1]
            have := kinds_of_getNode s target n hn
            rw [this, nodeKind, hdata]
          exact ResOk_trans s _ _ hs1
            (ih _ (.updateDependencyListeners target (shouldListen n)) hs1.1 hpre1)
        · have hs1 := StateOk_addDependentBase s target dep hpre hdeps
          exact StateOk_trans s _ _ hs1
            (StateOk_updateSubscriptionListener _ target (shouldListen n) hs1.1)
    | removeDependent target dep =>
      simp only [run]
      split
      · trivial
      · rename_i n hn
        split
        · exact StateOk_removeDependentBase s target dep hdeps
        · exact StateOk_removeDependentBase s target dep hdeps
        · rename_i valid version completion value dependencies calculate hdata
          have hs1 := StateOk_removeDependentBase s target dep hdeps
          have hpre1 : ReqPre (modifyNode s target (removeDependentBase dep))
              (.updateDependencyListeners target (shouldListen n)) := by
            show (kindsOfL _)[target]? = some NKind.formulaK
            rw [hs1.2.1]
            have := kinds_of_getNode s target n hn
            rw [this, nodeKind, hdata]
          exact ResOk_trans s _ _ hs1
            (ih _ (.updateDependencyListeners target (shouldListen n)) hs1.1 hpre1)
        · have hs1 := StateOk_removeDependentBase s target dep hdeps
          exact StateOk_trans s _ _ hs1
            (StateOk_updateSubscriptionListener _ target (shouldListen n) hs1.1)
    | updateDependencyListeners f didListen =>
      simp only [run]
      split
      · trivial
      · rename_i n hn
        split
        · split
          · exact ih s (.registerAll f _) hdeps hpre
          · exact StateOk_refl s hdeps
        · split
          · split
            · exact ih s (.unregisterAll f _) hdeps hpre
            · exact StateOk_refl s hdeps
          · exact StateOk_refl s hdeps
    | callListeners id =>
      simp only [run, mkError]
      split
      · trivial
      · rename_i n hn
        split
        · exact ih s (.callListenersBase id) hdeps trivial
        · exact StateOk_of_nodes s _ hdeps rfl rfl
        · exact StateOk_of_nodes s _ hdeps rfl rfl
        · split
          · exact StateOk_refl s hdeps
          · have hs1 := StateOk_formulaInvalidate s id hdeps
            exact ResOk_trans s _ _ hs1 (ih _ (.callListenersBase id) hs1.1 trivial)
    | callListenersBase id =>
      simp only [run]
      split
      · trivial
      · rename_i n hn
        have hs1 : StateOk s { s with
            log := s.log ++ n.listeners.map (fun l => Event.listenerFired id l) } :=
          StateOk_of_nodes s _ hdeps rfl rfl
        exact ResOk_trans s _ _ hs1 (ih _ (.notifyDependents n.dependents) hs1.1 trivial)
    | notifyDependents ds =>
      simp only [run]
      split
      · exact StateOk_refl s hdeps
      · rename_i d rest
        split
        · rename_i s1 v heq
          have hs1 := ResOk_ok s s1 _ _ (ih s (.callListeners d) hdeps trivial) heq
          exact ResOk_trans s s1 _ hs1 (ih s1 (.notifyDependents rest) hs1.1 trivial)
        · rename_i s1 v heq
          exact ResOk_thrown s s1 _ _ (ih s (.callListeners d) hdeps trivial) heq
        · trivial

theorem pendingOk_transfer (s s' : EngineState)
    (hk : kindsOfL s'.nodes = kindsOfL s.nodes) (hp : s'.pending = s.pending)
    (h : pendingOk s) : pendingOk s' := by
  intro id hid
  rw [hk]
  exact h id (hp ▸ hid)

theorem fanout_depErrFree : ∀ (fuel : Nat) (s : EngineState),
    depsOkL s.nodes →
    (∀ ds, (∀ d ∈ ds, (kindsOfL s.nodes)[d]? = some NKind.formulaK) →
        depErrFree (run fuel s (.notifyDependents ds))) ∧
    (∀ id, depErrFree (run fuel s (.callListenersBase id))) ∧
    (∀ id, ((kindsOfL s.nodes)[id]? = some NKind.formulaK ∨
            (kindsOfL s.nodes)[id]? = some NKind.cellK) →
        depErrFree (run fuel s (.callListeners id))) := by
  intro fuel
  induction fuel with
  | zero =>
    intro s hdeps
    refine ⟨?_, ?_, ?_⟩ <;> intro _ <;> (try intro _) <;> simp only [run] <;> trivial
  | succ fuel ih =>
    intro s hdeps
    refine ⟨?_, ?_, ?_⟩
    · intro ds hds
      simp only [run]
      split
      · trivial
      · rename_i d rest
        have hdf := (ih s hdeps).2.2 d (Or.inl (hds d (List.mem_cons_self _ _)))
        have hok := run_ResOk fuel s (.callListeners d) hdeps trivial
        split
        · rename_i s1 v heq
          have hs1 := ResOk_ok s s1 _ _ hok heq
          refine ((ih s1 hs1.1).1 rest ?_)
          intro e he
          rw [hs1.2.1]
          exact hds e (List.mem_cons_of_mem _ he)
        · rename_i s1 v heq
          rw [heq] at hdf
          exact hdf
        · trivial
    · intro id
      simp only [run]
      split
      · trivial
      · rename_i n hn
        have hmem : n ∈ s.nodes := List.getElem?_mem hn
        refine ((ih _ (show depsOkL ({ s with
            log := s.log ++ n.listeners.map (fun l => Event.listenerFired id l) }
              : EngineState).nodes from hdeps)).1 n.dependents ?_)
        intro d hd
        exact hdeps n hmem d hd
    · intro id hkind
      simp only [run, mkError]
      split
      · trivial
      · rename_i n hn
        have hkn := kinds_of_getNode s id n hn
        split
        · exact (ih s hdeps).2.1 id
        · rename_i version value hdata
          rw [hkn, nodeKind, hdata] at hkind
          rcases hkind with h | h <;> simp at h
        · rename_i valid version completion value attached extValue hdata
          rw [hkn, nodeKind, hdata] at hkind
          rcases hkind with h | h <;> simp at h
        · rename_i valid version completion value dependencies calculate hdata
          split
          · trivial
          · have hs1 := StateOk_formulaInvalidate s id hdeps
            exact (ih _ hs1.1).2.1 id

theorem kinds_append (l : List Node) (x : Node) (d : Nat) (k : NKind)
    (h : (kindsOfL l)[d]? = some k) : (kindsOfL (l ++ [x]))[d]? = some k := by
  rw [kindsOfL, List.map_append]
  have hlt : d < (kindsOfL l).length := by
    by_contra hge
    rw [List.getElem?_eq_none (Nat.le_of_not_lt hge)] at h
    cases h
  rw [List.getElem?_append, if_pos (by simpa [kindsOfL] using hlt)]
  exact h

theorem depsOkL_append (l : List Node) (x : Node) (hx : x.dependents = [])
    (h : depsOkL l) : depsOkL (l ++ [x]) := by
  intro n hn d hd
  rcases List.mem_append.mp hn with h1 | h1
  · exact kinds_append _ _ _ _ (h n h1 d hd)
  · rw [List.mem_singleton.mp h1, hx] at hd
    cases hd

theorem inv_newNode (s : EngineState) (x : Node) (hx : x.dependents = [])
    (h : depsOkL s.nodes ∧ pendingOk s) :
    depsOkL (s.nodes ++ [x]) ∧
    (∀ id ∈ s.pending, (kindsOfL (s.nodes ++ [x]))[id]? = some NKind.cellK) :=
  ⟨depsOkL_append s.nodes x hx h.1, fun id hid => kinds_append _ _ _ _ (h.2 id hid)⟩

theorem inv_of_StateOk (s s' : EngineState) (h : depsOkL s.nodes ∧ pendingOk s)
    (hso : StateOk s s') : depsOkL s'.nodes ∧ pendingOk s' :=
  ⟨hso.1, pendingOk_transfer s s' hso.2.1 hso.2.2 h.2⟩

theorem inv_resState_run (s s' : EngineState) (fuel : Nat) (req : Req)
    (h : depsOkL s.nodes ∧ pendingOk s) (hpre : ReqPre s req)
    (hres : resState (run fuel s req) = some s') :
    depsOkL s'.nodes ∧ pendingOk s' := by
  have hok := run_ResOk fuel s req h.1 hpre
  cases hr : run fuel s req with
  | ok s1 v =>
    rw [hr, resState] at hres
    cases hres
    exact inv_of_StateOk s s' h (ResOk_ok s s' _ _ hok hr)
  | thrown s1 v =>
    rw [hr, resState] at hres
    cases hres
    exact inv_of_StateOk s s' h (ResOk_thrown s s' _ _ hok hr)
  | out =>
    rw [hr, resState] at hres
    cases hres

theorem inv_same (s s' : EngineState) (h : depsOkL s.nodes ∧ pendingOk s)
    (hn : s'.nodes = s.nodes) (hp : s'.pending = s.pending) :
    depsOkL s'.nodes ∧ pendingOk s' :=
  inv_of_StateOk s s' h (StateOk_of_nodes s s' h.1 hn hp)

theorem inv_getWithoutListening (fuel : Nat) (s s' : EngineState) (id : Nat)
    (h : depsOkL s.nodes ∧ pendingOk s)
    (hres : resState (getWithoutListening fuel s id) = some s') :
    depsOkL s'.nodes ∧ pendingOk s' := by
  rw [getWithoutListening] at hres
  split at hres
  · cases hres
  · split at hres
    · cases hres
      exact h
    · cases hres
      exact h
    · split at hres
      · rename_i s1 v heq
        split at hres
        · rename_i n1 hn1
          split at hres
          · split at hres <;>
              (cases hres;
               exact inv_resState_run s s' fuel (.getLatestVersion id) h trivial
                 (by rw [heq]; rfl))
          · cases hres
        · cases hres
      · rename_i s1 v heq
        cases hres
        exact inv_resState_run s s' fuel (.getLatestVersion id) h trivial
          (by rw [heq]; rfl)
      · cases hres
    · split at hres
      · rename_i s1 v heq
        split at hres
        · rename_i n1 hn1
          split at hres
          · split at hres <;>
              (cases hres;
               exact inv_resState_run s s' fuel (.getLatestVersion id) h trivial
                 (by rw [heq]; rfl))
          · cases hres
        · cases hres
      · rename_i s1 v heq
        cases hres
        exact inv_resState_run s s' fuel (.getLatestVersion id) h trivial
          (by rw [heq]; rfl)
      · cases hres

theorem inv_calcPublic (fuel : Nat) (s s' : EngineState) (id : Nat)
    (h : depsOkL s.nodes ∧ pendingOk s)
    (hres : resState (calcPublic fuel s id) = some s') :
    depsOkL s'.nodes ∧ pendingOk s' :=
  inv_resState_run s s' fuel (.calcM id) h trivial hres

theorem inv_cellSet (s s' : EngineState) (id : Nat) (v : Val)
    (h : depsOkL s.nodes ∧ pendingOk s)
    (hres : resState (cellSet s id v) = some s') :
    depsOkL s'.nodes ∧ pendingOk s' := by
  rw [cellSet] at hres
  split at hres
  · cases hres
  · rename_i n hn
    split at hres
    · rename_i version value hdata
      split at hres
      · rw [mkError] at hres
        cases hres
        exact inv_same s _ h rfl rfl
      · split at hres
        · cases hres
          exact h
        · cases hres
          have hso : StateOk s (modifyNode s id (fun n1 =>
              match n1.data with
              | .cell v1 _ => { n1 with data := NodeData.cell (v1 + 1) v }
              | _ => n1)) := by
            refine StateOk_modify_frame s id _ ?_ ?_ h.1
            · intro m
              cases hm : m.data <;> simp [nodeKind, hm]
            · intro m d hd
              revert hd
              cases hm : m.data <;> simp [hm]
          refine ⟨hso.1, ?_⟩
          intro p hp
          rcases List.mem_append.mp hp with h1 | h1
          · rw [hso.2.1]
            exact h.2 p (hso.2.2 ▸ h1)
          · rw [List.mem_singleton.mp h1, hso.2.1, kinds_of_getNode s id n hn,
              nodeKind, hdata]
    · cases hres

theorem inv_liveValueSet (fuel : Nat) (s s' : EngineState) (id : Nat) (v : Val)
    (h : depsOkL s.nodes ∧ pendingOk s)
    (hres : resState (liveValueSet fuel s id v) = some s') :
    depsOkL s'.nodes ∧ pendingOk s' := by
  rw [liveValueSet] at hres
  split at hres
  · cases hres
  · rename_i n hn
    split at hres
    · rename_i version value hdata
      split at hres
      · rw [mkError] at hres
        cases hres
        exact inv_same s _ h rfl rfl
      · split at hres
        · cases hres
          exact h
        · have hso : StateOk s (modifyNode s id (fun n1 =>
              match n1.data with
              | .liveValue v1 _ => { n1 with data := NodeData.liveValue (v1 + 1) v }
              | _ => n1)) := by
            refine StateOk_modify_frame s id _ ?_ ?_ h.1
            · intro m
              cases hm : m.data <;> simp [nodeKind, hm]
            · intro m d hd
              revert hd
              cases hm : m.data <;> simp [hm]
          have hinv1 := inv_of_StateOk s _ h hso
          dsimp only at hres
          split at hres
          · rename_i s2 v2 heq
            cases hres
            exact inv_resState_run _ s' fuel (.callListenersBase id) hinv1 trivial
              (by rw [heq]; rfl)
          · rename_i s2 v2 heq
            cases hres
            exact inv_resState_run _ s' fuel (.callListenersBase id) hinv1 trivial
              (by rw [heq]; rfl)
          · cases hres
    · cases hres

theorem inv_addListenerPublic (fuel : Nat) (s s' : EngineState) (id l : Nat)
    (h : depsOkL s.nodes ∧ pendingOk s)
    (hres : resState (addListenerPublic fuel s id l) = some s') :
    depsOkL s'.nodes ∧ pendingOk s' := by
  rw [addListenerPublic] at hres
  split at hres
  · cases hres
  · rename_i n hn
    split at hres
    · cases hres
      exact inv_of_StateOk s _ h (StateOk_addListenerBase s id l h.1)
    · cases hres
      exact inv_of_StateOk s _ h (StateOk_addListenerBase s id l h.1)
    · rename_i valid version completion value dependencies calculate hdata
      have hso := StateOk_addListenerBase s id l h.1
      have hinv1 := inv_of_StateOk s _ h hso
      have hpre1 : ReqPre (modifyNode s id (addListenerBase l))
          (.updateDependencyListeners id (shouldListen n)) := by
        show (kindsOfL _)[id]? = some NKind.formulaK
        rw [hso.2.1, kinds_of_getNode s id n hn, nodeKind, hdata]
      dsimp only at hres
      split at hres
      · rename_i s2 v2 heq
        cases hres
        exact inv_resState_run _ s' fuel (.updateDependencyListeners id (shouldListen n))
          hinv1 hpre1 (by rw [heq]; rfl)
      · rename_i s2 v2 heq
        cases hres
        exact inv_resState_run _ s' fuel (.updateDependencyListeners id (shouldListen n))
          hinv1 hpre1 (by rw [heq]; rfl)
      · cases hres
    · cases hres
      have hso := StateOk_addListenerBase s id l h.1
      exact inv_of_StateOk s _ h (StateOk_trans s _ _ hso
        (StateOk_updateSubscriptionListener _ id (shouldListen n) hso.1))

theorem inv_removeListenerPublic (fuel : Nat) (s s' : EngineState) (id l : Nat)
    (h : depsOkL s.nodes ∧ pendingOk s)
    (hres : resState (removeListenerPublic fuel s id l) = some s') :
    depsOkL s'.nodes ∧ pendingOk s' := by
  rw [removeListenerPublic] at hres
  split at hres
  · cases hres
  · rename_i n hn
    split at hres
    · cases hres
      exact inv_of_StateOk s _ h (StateOk_removeListenerBase s id l h.1)
    · cases hres
      exact inv_of_StateOk s _ h (StateOk_removeListenerBase s id l h.1)
    · rename_i valid version completion value dependencies calculate hdata
      have hso := StateOk_removeListenerBase s id l h.1
      have hinv1 := inv_of_StateOk s _ h hso
      have hpre1 : ReqPre (modifyNode s id (removeListenerBase l))
          (.updateDependencyListeners id (shouldListen n)) := by
        show (kindsOfL _)[id]? = some NKind.formulaK
        rw [hso.2.1, kinds_of_getNode s id n hn, nodeKind, hdata]
      dsimp only at hres
      split at hres
      · rename_i s2 v2 heq
        cases hres
        exact inv_resState_run _ s' fuel (.updateDependencyListeners id (shouldListen n))
          hinv1 hpre1 (by rw [heq]; rfl)
      · rename_i s2 v2 heq
        cases hres
        exact inv_resState_run _ s' fuel (.updateDependencyListeners id (shouldListen n))
          hinv1 hpre1 (by rw [heq]; rfl)
      · cases hres
    · cases hres
      have hso := StateOk_removeListenerBase s id l h.1
      exact inv_of_StateOk s _ h (StateOk_trans s _ _ hso
        (StateOk_updateSubscriptionListener _ id (shouldListen n) hso.1))

theorem inv_extFire (fuel : Nat) (s s' : EngineState) (id : Nat)
    (h : depsOkL s.nodes ∧ pendingOk s)
    (hres : resState (extFire fuel s id) = some s') :
    depsOkL s'.nodes ∧ pendingOk s' := by
  rw [extFire] at hres
  split at hres
  · cases hres
  · rename_i n hn
    split at hres
    · split at hres
      · split at hres
        · cases hres
          exact h
        · have hinv1 := inv_of_StateOk s _ h (StateOk_subInvalidate s id h.1)
          split at hres
          · rename_i s2 v2 heq
            cases hres
            exact inv_resState_run _ s' fuel (.callListenersBase id) hinv1 trivial
              (by rw [heq]; rfl)
          · rename_i s2 v2 heq
            cases hres
            exact inv_resState_run _ s' fuel (.callListenersBase id) hinv1 trivial
              (by rw [heq]; rfl)
          · cases hres
      · cases hres
        exact h
    · cases hres

theorem inv_extSilentSet (s : EngineState) (id : Nat) (v : Val)
    (h : depsOkL s.nodes ∧ pendingOk s) :
    depsOkL (extSilentSet s id v).nodes ∧ pendingOk (extSilentSet s id v) := by
  refine inv_of_StateOk s _ h ?_
  refine StateOk_modify_frame s id _ ?_ ?_ h.1
  · intro m
    cases hm : m.data <;> simp [nodeKind, hm]
  · intro m d hd
    revert hd
    cases hm : m.data <;> simp [hm]

theorem inv_flushOne (fuel : Nat) (s s' : EngineState)
    (h : depsOkL s.nodes ∧ pendingOk s)
    (hres : resState (flushOne fuel s) = some s') :
    depsOkL s'.nodes ∧ pendingOk s' := by
  rw [flushOne] at hres
  split at hres
  · cases hres
    exact h
  · rename_i id rest hpend
    have hinv1 : depsOkL ({ s with pending := rest } : EngineState).nodes ∧
        pendingOk { s with pending := rest } := by
      refine ⟨h.1, ?_⟩
      intro p hp
      exact h.2 p (by rw [hpend]; exact List.mem_cons_of_mem _ hp)
    split at hres
    · rename_i s2 v2 heq
      cases hres
      exact inv_resState_run _ s' fuel (.callListeners id) hinv1 trivial
        (by rw [heq]; rfl)
    · rename_i s2 v2 heq
      cases hres
      exact inv_resState_run _ s' fuel (.callListeners id) hinv1 trivial
        (by rw [heq]; rfl)
    · cases hres

theorem reachable_inv (s : EngineState) (h : Reachable s) :
    depsOkL s.nodes ∧ pendingOk s := by
  induction h with
  | init =>
    constructor
    · intro n hn
      cases hn
    · intro id hid
      cases hid
  | newCellStep s v hs ih => exact inv_newNode s _ rfl ih
  | newLiveValueStep s v hs ih => exact inv_newNode s _ rfl ih
  | newFormulaStep s e hs ih => exact inv_newNode s _ rfl ih
  | newSubscriptionStep s v hs ih => exact inv_newNode s _ rfl ih
  | cellSetStep s s' id v hs hres ih => exact inv_cellSet s s' id v ih hres
  | liveValueSetStep fuel s s' id v hs hres ih => exact inv_liveValueSet fuel s s' id v ih hres
  | getStep fuel s s' id hs hres ih => exact inv_getWithoutListening fuel s s' id ih hres
  | calcStep fuel s s' id hs hres ih => exact inv_calcPublic fuel s s' id ih hres
  | addListenerStep fuel s s' id l hs hres ih => exact inv_addListenerPublic fuel s s' id l ih hres
  | removeListenerStep fuel s s' id l hs hres ih => exact inv_removeListenerPublic fuel s s' id l ih hres
  | extFireStep fuel s s' id hs hres ih => exact inv_extFire fuel s s' id ih hres
  | extSilentSetStep s id v hs ih => exact inv_extSilentSet s id v ih
  | flushStep fuel s s' hs hres ih => exact inv_flushOne fuel s s' ih hres

/-- C10: only formulas ever appear in a `_dependents` set.  In every state
reachable from the empty engine by completed public operations, every member
of every node's dependents set refers to a formula node (the engine only ever
registers the evaluating formula itself as a dependent); consequently the
overriding `_callListeners` bodies of `Live.Value` and `Subscription` — which
throw because a source node must never be a dependent — are unreachable: no
scheduled cell notification, external subscription change event, or
`Live.Value.set` fan-out can produce those errors. -/
theorem source_nodes_never_dependents (s : EngineState) (h : Reachable s) :
    (∀ n ∈ s.nodes, ∀ d ∈ n.dependents,
        (kindsOfL s.nodes)[d]? = some NKind.formulaK) ∧
    (∀ fuel, depErrFree (flushOne fuel s)) ∧
    (∀ fuel id, depErrFree (extFire fuel s id)) ∧
    (∀ fuel id v, depErrFree (liveValueSet fuel s id v)) := by
  have hinv := reachable_inv s h
  refine ⟨hinv.1, ?_, ?_, ?_⟩
  · intro fuel
    rw [flushOne]
    split
    · trivial
    · rename_i id rest hpend
      have hkind : (kindsOfL s.nodes)[id]? = some NKind.cellK :=
        hinv.2 id (by rw [hpend]; exact List.mem_cons_self _ _)
      have hdf := (fanout_depErrFree fuel { s with pending := rest }
        hinv.1).2.2 id (Or.inr hkind)
      split
      · trivial
      · rename_i s1 v1 heq
        rw [heq] at hdf
        exact hdf
      · trivial
  · intro fuel id
    rw [extFire]
    split
    · trivial
    · rename_i n hn
      split
      · split
        · split
          · trivial
          · have hdf := (fanout_depErrFree fuel (subInvalidate s id)
              (StateOk_subInvalidate s id hinv.1).1).2.1 id
            split
            · trivial
            · rename_i s1 v1 heq
              rw [heq] at hdf
              exact hdf
            · trivial
        · trivial
      · trivial
  · intro fuel id v
    rw [liveValueSet]
    split
    · trivial
    · rename_i n hn
      split
      · split
        · rw [mkError]
          trivial
        · split
          · trivial
          · have hdf := (fanout_depErrFree fuel (modifyNode s id (fun n1 =>
                match n1.data with
                | .liveValue v1 _ => { n1 with data := NodeData.liveValue (v1 + 1) v }
                | _ => n1))
              (StateOk_modify_frame s id _
                (by intro m; cases hm : m.data <;> simp [nodeKind, hm])
                (by intro m d hd; revert hd; cases hm : m.data <;> simp [hm])
                hinv.1).1).2.1 id
            dsimp only
            split
            · trivial
            · rename_i s1 v1 heq
              rw [heq] at hdf
              exact hdf
            · trivial
      · trivial

theorem source_nodes_never_dependents_witness :
    (∀ n ∈ listenerDiamondReady.nodes, ∀ d ∈ n.dependents,
        (kindsOfL listenerDiamondReady.nodes)[d]? = some NKind.formulaK) ∧
    (∀ fuel, depErrFree (flushOne fuel listenerDiamondReady)) ∧
    (∀ fuel id, depErrFree (extFire fuel listenerDiamondReady id)) ∧
    (∀ fuel id v, depErrFree (liveValueSet fuel listenerDiamondReady id v)) :=
  source_nodes_never_dependents listenerDiamondReady
    (Reachable.getStep 20 (stateOf (addListenerPublic 20 listenerDiamondInit 3 9))
      listenerDiamondReady 3
      (Reachable.addListenerStep 20 listenerDiamondInit
        (stateOf (addListenerPublic 20 listenerDiamondInit 3 9)) 3 9
        (Reachable.newFormulaStep _ _
          (Reachable.newFormulaStep _ _
            (Reachable.newFormulaStep _ _
              (Reachable.newCellStep _ _ Reachable.init))))
        (by decide))
      (by decide))

end CalcEngine
